import Mathlib

/-!
# Verification of the gobrowser rendering pipeline

Shallow embedding, in Lean 4, of the parts of the `gobrowser` repository that
the checked claims are about: CSS selector specificity, the cascade/style
applicators, the markup tokenizer, the display list, the layout engine and the
tab navigation history.  Go `float64` arithmetic is modelled by exact rational
arithmetic (`ℚ`); Go strings are modelled by `String`/`List Char` (the inputs
appearing in the concrete theorems are ASCII, where Go's byte indexing and
Lean's character indexing agree).  Go maps are modelled by association lists
with overwrite-on-insert semantics; where the source iterates over a map, the
embedding iterates over the list and the relevant theorems only depend on
lookups at distinct keys, so the unspecified Go iteration order is immaterial.
-/

namespace GoBrowser

/-! ## Common Go string helpers -/

/-- Go `unicode.IsSpace`: Unicode white space.  Enumerated over the code
points of the Unicode `White_Space` property (`'\t'`, `'\n'`, `'\v'`, `'\f'`,
`'\r'`, `' '`, U+0085, U+00A0, U+1680, U+2000..U+200A, U+2028, U+2029,
U+202F, U+205F, U+3000). -/
def goIsSpace (c : Char) : Bool :=
  c == ' ' || c == '\t' || c == '\n' || c == '\x0b' || c == '\x0c' || c == '\r' ||
  c.toNat == 0x85 || c.toNat == 0xA0 || c.toNat == 0x1680 ||
  (0x2000 ≤ c.toNat && c.toNat ≤ 0x200A) ||
  c.toNat == 0x2028 || c.toNat == 0x2029 || c.toNat == 0x202F ||
  c.toNat == 0x205F || c.toNat == 0x3000

/-- Go `strings.TrimSpace` on a character list: drop Unicode white space from
both ends. -/
def trimSpaceList (l : List Char) : List Char :=
  ((l.dropWhile goIsSpace).reverse.dropWhile goIsSpace).reverse

/-- Go `strings.TrimSpace`. -/
def trimSpace (s : String) : String :=
  String.mk (trimSpaceList s.data)

/-- Go `strings.Count s sub` for a one-character `sub`: the number of
occurrences of the character. -/
def countChar (s : String) (c : Char) : Nat :=
  s.data.countP (fun d => d == c)

/-- Go `strings.Contains` for a one-character substring. -/
def containsChar (s : String) (c : Char) : Bool :=
  s.data.any (fun d => d == c)

/-! ## C10 — tab navigation history (`src/internal/browser/tab.go`)

The Go code stores the history as a doubly linked list of `page`s with a
pointer to the current page.  The embedding uses the equivalent zipper:
the pages before the current one (nearest first), the current URL, and the
pages after it (nearest first); `none` when no navigation happened yet. -/

/-- The `history` pointer of a `tab`, as a zipper over the doubly linked
`page` list. -/
structure History where
  prevs : List String
  url : String
  nexts : List String
deriving DecidableEq, Repr

/-- The navigation-relevant state of `tab` (`id`, `title` and `document` do
not participate in `Navigate`/`CanGoBack`/`CanGoNext`). -/
structure Tab where
  history : Option History
  loading : Bool
deriving DecidableEq, Repr

namespace Tab

/-- `tab.GetURL` (the version guarding against a nil history). -/
def getURL (t : Tab) : String :=
  match t.history with
  | none => ""
  | some h => h.url

/-- `tab.CanGoBack`: non-nil history with a non-nil `prev` pointer. -/
def canGoBack (t : Tab) : Bool :=
  match t.history with
  | none => false
  | some h => !h.prevs.isEmpty

/-- `tab.CanGoNext`: non-nil history with a non-nil `next` pointer. -/
def canGoNext (t : Tab) : Bool :=
  match t.history with
  | none => false
  | some h => !h.nexts.isEmpty

/-- `tab.addToHistory`: first navigation installs the page; afterwards the
current page's forward chain is cut, the new page is linked after the current
one and becomes current. -/
def addToHistory (t : Tab) (url : String) : Tab :=
  match t.history with
  | none => { t with history := some ⟨[], url, []⟩ }
  | some h => { t with history := some ⟨h.url :: h.prevs, url, []⟩ }

/-- `tab.Navigate`: blank URLs are ignored, otherwise the URL is appended to
the history and the tab starts loading. -/
def navigate (t : Tab) (url : String) : Tab :=
  if trimSpace url = "" then t
  else { t.addToHistory url with loading := true }

end Tab

/-- C10: navigating to a blank URL leaves the tab unchanged; navigating to a
non-blank URL makes it the current page with no forward page, and a back page
exists afterwards exactly when some page was current before. -/
theorem navigate_history_spec (t : Tab) (url : String) :
    (trimSpace url = "" → t.navigate url = t) ∧
    (trimSpace url ≠ "" →
      (t.navigate url).getURL = url ∧
      (t.navigate url).canGoNext = false ∧
      (t.navigate url).canGoBack = t.history.isSome) := by
  constructor
  · intro h
    simp [Tab.navigate, h]
  · intro h
    cases t with
    | mk hist loading =>
      cases hist with
      | none =>
        simp [Tab.navigate, h, Tab.addToHistory, Tab.getURL, Tab.canGoNext,
          Tab.canGoBack]
      | some hz =>
        simp [Tab.navigate, h, Tab.addToHistory, Tab.getURL, Tab.canGoNext,
          Tab.canGoBack]

/-- Witness for C10 at concrete inputs: a tab with a current page and a
forward page, navigated to "b". -/
theorem navigate_history_spec_witness :
    trimSpace "b" ≠ "" ∧
    ((Tab.navigate ⟨some ⟨[], "a", ["fwd"]⟩, false⟩ "b").getURL = "b" ∧
     (Tab.navigate ⟨some ⟨[], "a", ["fwd"]⟩, false⟩ "b").canGoNext = false ∧
     (Tab.navigate ⟨some ⟨[], "a", ["fwd"]⟩, false⟩ "b").canGoBack =
       (Option.isSome (some (⟨[], "a", ["fwd"]⟩ : History)))) :=
  ⟨by decide, (navigate_history_spec ⟨some ⟨[], "a", ["fwd"]⟩, false⟩ "b").2 (by decide)⟩

/-! ## Bounds and the display list
(`src/internal/ui/types/types.go`, `src/unnamed/part_011`, the render
commands in `src/internal/browser/tab.go` lines 249-499) -/

/-- `types.Bounds`. -/
structure Bounds where
  x : ℚ
  y : ℚ
  width : ℚ
  height : ℚ
deriving DecidableEq, Repr

namespace Bounds

/-- `Bounds.Contains`: inclusive point-in-rectangle test. -/
def contains (b : Bounds) (px py : ℚ) : Bool :=
  decide (b.x ≤ px) && decide (px ≤ b.x + b.width) &&
  decide (b.y ≤ py) && decide (py ≤ b.y + b.height)

/-- `Bounds.Intersects`. -/
def intersects (b other : Bounds) : Bool :=
  !(decide (b.x + b.width < other.x) || decide (other.x + other.width < b.x) ||
    decide (b.y + b.height < other.y) || decide (other.y + other.height < b.y))

end Bounds

/-- `color.NRGBA`. -/
structure NRGBA where
  r : Nat
  g : Nat
  b : Nat
  a : Nat
deriving DecidableEq, Repr

/-- `browser.CharWidthRatio` (0.6). -/
def charWidthFactor : ℚ := 6 / 10

/-- `browser.LineHeightRatio` (1.2). -/
def lineHeightFactor : ℚ := 12 / 10

/-- `browser.DefaultFontSize` (16.0). -/
def defaultFontSize : ℚ := 16

/-- The `render.DrawCommand` variants (`drawText`, `drawRect`, `drawLine`);
the originating `browser.Node` back reference is modelled by a numeric node
identity. -/
inductive DrawCommand where
  | text (x y : ℚ) (str : String) (fontSize : ℚ) (color : NRGBA) (node : Nat)
  | rect (bounds : Bounds) (color : NRGBA) (node : Nat)
  | line (x1 y1 x2 y2 : ℚ) (color : NRGBA) (width : ℚ) (node : Nat)
deriving DecidableEq, Repr

namespace DrawCommand

/-- `GetBounds` of each command kind.  `drawText.GetBounds` multiplies the Go
byte length `len(dt.text)` by `fontSize * CharWidthRatio`. -/
def getBounds : DrawCommand → Bounds
  | .text x y str fontSize _ _ =>
      ⟨x, y, (str.utf8ByteSize : ℚ) * fontSize * charWidthFactor, fontSize⟩
  | .rect bounds _ _ => bounds
  | .line x1 y1 x2 y2 _ _ _ =>
      ⟨min x1 x2, min y1 y2, max x1 x2 - min x1 x2, max y1 y2 - min y1 y2⟩

/-- `GetNode` of each command kind. -/
def getNode : DrawCommand → Nat
  | .text _ _ _ _ _ node => node
  | .rect _ _ node => node
  | .line _ _ _ _ _ _ node => node

/-- The visibility test each command's `Execute` performs before drawing
(`drawText.isVisible`, `drawRect.isVisible`, `drawLine.isVisible`): the
scroll-adjusted bounds must intersect an expanded viewport rectangle. -/
def execVisible (cmd : DrawCommand) (scrollY maxY : ℚ) : Bool :=
  match cmd with
  | .text x y str fontSize _ _ =>
      let adjustedY := y - scrollY
      let textHeight := if fontSize ≤ 0 then defaultFontSize else fontSize
      let bounds : Bounds :=
        ⟨x, adjustedY, (str.utf8ByteSize : ℚ) * fontSize * charWidthFactor, textHeight⟩
      let viewportBounds : Bounds := ⟨0, -textHeight * 2, maxY * 2, maxY + textHeight * 2⟩
      bounds.intersects viewportBounds
  | .rect b _ _ =>
      let adjustedY := b.y - scrollY
      let adjustedBounds : Bounds := ⟨b.x, adjustedY, b.width, b.height⟩
      let viewportBounds : Bounds := ⟨0, 0, maxY * 2, maxY⟩
      adjustedBounds.intersects viewportBounds
  | .line x1 y1 x2 y2 _ _ _ =>
      let adjY1 := y1 - scrollY
      let adjY2 := y2 - scrollY
      let lineBounds : Bounds :=
        ⟨min x1 x2, min adjY1 adjY2, |x2 - x1|, |adjY2 - adjY1|⟩
      let viewportBounds : Bounds := ⟨0, 0, maxY * 2, maxY⟩
      lineBounds.intersects viewportBounds

end DrawCommand

/-- `render.displayList`: an ordered command list and a total height. -/
structure DisplayList where
  commands : List DrawCommand
  height : ℚ
deriving DecidableEq, Repr

namespace DisplayList

/-- `NewDisplayList`. -/
def empty : DisplayList := ⟨[], 0⟩

/-- `displayList.AddCommand`: unconditional append. -/
def addCommand (dl : DisplayList) (cmd : DrawCommand) : DisplayList :=
  { dl with commands := dl.commands ++ [cmd] }

/-- `displayList.SetHeight`. -/
def setHeight (dl : DisplayList) (h : ℚ) : DisplayList :=
  { dl with height := h }

/-- Whether a command's scroll-adjusted bounds contain the point, as computed
inside `displayList.FindElementAt` (only `Y` is scroll adjusted). -/
def hitAt (x y scrollY : ℚ) (cmd : DrawCommand) : Bool :=
  let bounds := cmd.getBounds
  (Bounds.mk bounds.x (bounds.y - scrollY) bounds.width bounds.height).contains x y

/-- `displayList.FindElementAt`: scan the commands from the last inserted to
the first and return the node of the first whose scroll-adjusted bounds
contain the point. -/
def findElementAt (dl : DisplayList) (x y scrollY : ℚ) : Option Nat :=
  (dl.commands.reverse.find? (hitAt x y scrollY)).map DrawCommand.getNode

/-- `displayList.Paint` replays every stored command's `Execute`; the commands
that actually draw are those whose paint-time visibility test passes. -/
def paintDrawn (dl : DisplayList) (scrollY maxY : ℚ) : List DrawCommand :=
  dl.commands.filter (fun cmd => cmd.execVisible scrollY maxY)

end DisplayList

/-- `find?` on a list equals the head of its `filter`. -/
theorem find?_eq_head?_filter {α : Type} (p : α → Bool) (l : List α) :
    l.find? p = (l.filter p).head? := by
  induction l with
  | nil => rfl
  | cons a l ih =>
    by_cases h : p a
    · simp [List.find?, List.filter, h]
    · rw [List.find?_cons_of_neg _ (by simp [h]), List.filter_cons_of_neg (by simp [h])]
      exact ih

/-- C6: `findElementAt` returns the node of the last-inserted (topmost)
command whose scroll-adjusted bounds contain the point; when no command's
adjusted bounds contain the point, the filtered list is empty, its `getLast?`
is `none` and so is the result. -/
theorem findElementAt_topmost (dl : DisplayList) (x y scrollY : ℚ) :
    dl.findElementAt x y scrollY =
      ((dl.commands.filter (DisplayList.hitAt x y scrollY)).getLast?).map
        DrawCommand.getNode := by
  unfold DisplayList.findElementAt
  rw [find?_eq_head?_filter, List.filter_reverse, List.head?_reverse]

/-- C5 counterexample: a text command far below the viewport, whose
scroll-adjusted bounds do not intersect the expanded viewport rectangle, IS
appended to the display list by `AddCommand` — emission-time culling does not
happen. -/
theorem addCommand_no_culling_counterexample :
    (DrawCommand.text 0 10000 "hello" 16 ⟨0, 0, 0, 255⟩ 7).execVisible 0 600 = false ∧
    (DisplayList.empty.addCommand
        (DrawCommand.text 0 10000 "hello" 16 ⟨0, 0, 0, 255⟩ 7)).commands =
      [DrawCommand.text 0 10000 "hello" 16 ⟨0, 0, 0, 255⟩ 7] := by
  constructor
  · norm_num [DrawCommand.execVisible, Bounds.intersects, charWidthFactor,
      defaultFontSize, String.utf8ByteSize]
  · rfl

/-- C5 amended: `AddCommand` appends every command unconditionally and leaves
the stored height unchanged; the visibility culling happens at paint time
instead — replaying the list draws exactly the commands whose scroll-adjusted
bounds intersect the expanded viewport, a command failing that test being
skipped by its own `Execute`. -/
theorem addCommand_paint_time_culling (dl : DisplayList) (cmd : DrawCommand)
    (scrollY maxY : ℚ) :
    (dl.addCommand cmd).commands = dl.commands ++ [cmd] ∧
    (dl.addCommand cmd).height = dl.height ∧
    (dl.addCommand cmd).paintDrawn scrollY maxY =
      dl.paintDrawn scrollY maxY ++
        (if cmd.execVisible scrollY maxY then [cmd] else []) := by
  refine ⟨rfl, rfl, ?_⟩
  unfold DisplayList.paintDrawn DisplayList.addCommand
  by_cases h : cmd.execVisible scrollY maxY
  · simp [List.filter_append, h]
  · simp [List.filter_append, h]

/-! ## C1 — selector specificity
(`src/unnamed/part_009` `cssParser.calculateSpecificity` and
`src/internal/browser/css_style.go` `selectorMatcher.calculateSelectorSpecificity`)

Both functions strip selector fragments with the regular expressions
`#[^\s#.\[:]+`, `\.[^\s#.\[:]+`, `\[[^\]]*\]`, `::[^:\s\[]+`, `:[^:\s\[]+`
and then count element words `\b[a-zA-Z][a-zA-Z0-9]*\b` that are not media
keywords.  The replacement scanners below implement exactly those patterns
(leftmost, non-overlapping, the `+` taking the maximal run); they carry a
fuel argument, always called with `length + 1`, so that they are structural
and evaluate inside `decide`. -/

/-- RE2 `\s` = `[\t\n\f\r ]`. -/
def reSpace (c : Char) : Bool :=
  c == ' ' || c == '\t' || c == '\n' || c == '\x0c' || c == '\r'

/-- A character matched by `[^\s#.\[:]` (the run after `#` or `.`). -/
def selPartChar (c : Char) : Bool :=
  !(reSpace c || c == '#' || c == '.' || c == '[' || c == ':')

/-- A character matched by `[^:\s\[]` (the run after `:` or `::`). -/
def pseudoRunChar (c : Char) : Bool :=
  !(c == ':' || reSpace c || c == '[')

/-- `ReplaceAllString` of `mark[^\s#.\[:]+` by the empty string (for
`mark = '#'` and `mark = '.'`). -/
def removeMarkedF (mark : Char) : Nat → List Char → List Char
  | 0, _ => []
  | _ + 1, [] => []
  | fuel + 1, c :: rest =>
    if c = mark ∧ ¬(rest.takeWhile selPartChar).isEmpty then
      removeMarkedF mark fuel (rest.dropWhile selPartChar)
    else c :: removeMarkedF mark fuel rest

def removeMarked (mark : Char) (l : List Char) : List Char :=
  removeMarkedF mark (l.length + 1) l

/-- `len(FindAllString(mark[^\s#.\[:]+))` (for `mark = '#'` and
`mark = '.'`). -/
def countMarkedF (mark : Char) : Nat → List Char → Nat
  | 0, _ => 0
  | _ + 1, [] => 0
  | fuel + 1, c :: rest =>
    if c = mark ∧ ¬(rest.takeWhile selPartChar).isEmpty then
      1 + countMarkedF mark fuel (rest.dropWhile selPartChar)
    else countMarkedF mark fuel rest

def countMarked (mark : Char) (l : List Char) : Nat :=
  countMarkedF mark (l.length + 1) l

/-- `ReplaceAllString` of `\[[^\]]*\]` by the empty string. -/
def removeAttrF : Nat → List Char → List Char
  | 0, _ => []
  | _ + 1, [] => []
  | fuel + 1, c :: rest =>
    if c = '[' ∧ rest.any (fun d => d == ']') then
      removeAttrF fuel (rest.dropWhile (fun d => !(d == ']'))).tail
    else c :: removeAttrF fuel rest

def removeAttr (l : List Char) : List Char :=
  removeAttrF (l.length + 1) l

/-- `len(FindAllString(\[[^\]]*\]))`. -/
def countAttrF : Nat → List Char → Nat
  | 0, _ => 0
  | _ + 1, [] => 0
  | fuel + 1, c :: rest =>
    if c = '[' ∧ rest.any (fun d => d == ']') then
      1 + countAttrF fuel (rest.dropWhile (fun d => !(d == ']'))).tail
    else countAttrF fuel rest

def countAttr (l : List Char) : Nat :=
  countAttrF (l.length + 1) l

/-- `ReplaceAllString` of `::[^:\s\[]+` by a single space. -/
def replacePseudoElemF : Nat → List Char → List Char
  | 0, _ => []
  | _ + 1, [] => []
  | fuel + 1, c :: rest =>
    match rest with
    | r :: rs =>
      if c = ':' ∧ r = ':' ∧ ¬(rs.takeWhile pseudoRunChar).isEmpty then
        ' ' :: replacePseudoElemF fuel (rs.dropWhile pseudoRunChar)
      else c :: replacePseudoElemF fuel rest
    | [] => [c]

def replacePseudoElem (l : List Char) : List Char :=
  replacePseudoElemF (l.length + 1) l

/-- `ReplaceAllString` of `:[^:\s\[]+` by the empty string. -/
def removeSingleColonF : Nat → List Char → List Char
  | 0, _ => []
  | _ + 1, [] => []
  | fuel + 1, c :: rest =>
    if c = ':' ∧ ¬(rest.takeWhile pseudoRunChar).isEmpty then
      removeSingleColonF fuel (rest.dropWhile pseudoRunChar)
    else c :: removeSingleColonF fuel rest

def removeSingleColon (l : List Char) : List Char :=
  removeSingleColonF (l.length + 1) l

/-- A word character for RE2's `\b` boundary: `[0-9A-Za-z_]`. -/
def isWordChar (c : Char) : Bool :=
  c.isAlpha || c.isDigit || c == '_'

/-- The maximal runs of word characters in a string. -/
def wordRunsF : Nat → List Char → List (List Char)
  | 0, _ => []
  | _ + 1, [] => []
  | fuel + 1, c :: rest =>
    if isWordChar c then
      (c :: rest.takeWhile isWordChar) :: wordRunsF fuel (rest.dropWhile isWordChar)
    else wordRunsF fuel rest

def wordRuns (l : List Char) : List (List Char) :=
  wordRunsF (l.length + 1) l

/-- `isCSSKeyword` (both copies agree): the lower-cased word is one of the
media-query keywords.  `strings.ToLower` is modelled characterwise (the words
tested are ASCII element names). -/
def isCSSKeyword (w : String) : Bool :=
  let lw := String.mk (w.data.map Char.toLower)
  lw == "and" || lw == "not" || lw == "only" ||
  lw == "all" || lw == "screen" || lw == "print"

/-- A maximal word run matched by `\b[a-zA-Z][a-zA-Z0-9]*\b`: it must start
with a letter and contain no underscore (an interior `_` is a word character,
so the `\b` boundaries exclude the run). -/
def isElementWord (run : List Char) : Bool :=
  match run with
  | [] => false
  | c :: rest => c.isAlpha && rest.all (fun d => d.isAlpha || d.isDigit)

/-- The element count both specificity functions compute after stripping
IDs, classes, attributes and pseudo parts. -/
def countElementWords (l : List Char) : Nat :=
  ((wordRuns l).filter
    (fun run => isElementWord run && !isCSSKeyword (String.mk run))).length

/-- The stripped selector both specificity functions count element words
in. -/
def elementSelectorOf (s : List Char) : List Char :=
  removeSingleColon (replacePseudoElem (removeAttr
    (removeMarked '.' (removeMarked '#' s))))

/-- `cssParser.countPseudoClasses` (`src/unnamed/part_009`): a single `:`
counts, a `::` pair is skipped. -/
def cssParserCountPseudo : List Char → Nat
  | ':' :: ':' :: rest => cssParserCountPseudo rest
  | ':' :: rest => 1 + cssParserCountPseudo rest
  | _ :: rest => cssParserCountPseudo rest
  | [] => 0

/-- `cssParser.calculateSpecificity` (`src/unnamed/part_009`):
`#`-count × 100 + (`.`-count + `[`-count + pseudo-class count) × 10 +
element-word count of the stripped selector. -/
def calculateSpecificity (selector : String) : Nat :=
  let s := trimSpaceList selector.data
  let idCount := s.countP (fun c => c == '#')
  let classCount := s.countP (fun c => c == '.')
  let attributeCount := s.countP (fun c => c == '[')
  let pseudoClassCount := cssParserCountPseudo s
  idCount * 100 + (classCount + attributeCount + pseudoClassCount) * 10 +
    countElementWords (elementSelectorOf s)

/-- `selectorMatcher.countPseudoClasses`
(`src/internal/browser/css_style.go` lines 354-364): the loop never tests
whether the current byte is a colon, so every position whose successor is not
a colon is counted. -/
def matcherCountPseudo : List Char → Nat
  | [] => 0
  | [_] => 1
  | _ :: b :: rest =>
    if b = ':' then matcherCountPseudo rest
    else 1 + matcherCountPseudo (b :: rest)

/-- `selectorMatcher.calculateSelectorSpecificity`
(`src/internal/browser/css_style.go` lines 315-352): regex-match counts for
IDs, classes and attributes, plus the (mis)counted pseudo-classes. -/
def calculateSelectorSpecificity (selector : String) : Nat :=
  let s := trimSpaceList selector.data
  let idCount := countMarked '#' s
  let classCount := countMarked '.' s + countAttr s + matcherCountPseudo s
  idCount * 100 + classCount * 10 + countElementWords (elementSelectorOf s)

/-- C1: the parser-side cached specificity (`part_009`) gives the documented
values 10/100/110 on `.a`, `#b`, `#b.a` and follows the
100·id + 10·(class+attribute+pseudo) + 1·element formula, but the selector
matcher's own copy (`css_style.go`), used to sort matched rules, counts
pseudo-classes at every position not followed by a colon and returns
30/120/150 on the same selectors. -/
theorem specificity_values :
    calculateSpecificity ".a" = 10 ∧
    calculateSpecificity "#b" = 100 ∧
    calculateSpecificity "#b.a" = 110 ∧
    calculateSpecificity "p.cls:first-child" = 21 ∧
    calculateSelectorSpecificity ".a" = 30 ∧
    calculateSelectorSpecificity "#b" = 120 ∧
    calculateSelectorSpecificity "#b.a" = 150 := by
  decide

/-! ## Association-list model of Go maps

Go's `map[string]T` is modelled by an association list whose insert removes
the previous binding; only lookups are observable in the verified code
paths, so the unspecified Go iteration order is immaterial. -/

/-- Lookup in a Go map. -/
def alGet {α : Type} (m : List (String × α)) (k : String) : Option α :=
  (m.find? (fun p => p.1 == k)).map (fun p => p.2)

/-- Insert/overwrite in a Go map. -/
def alSet {α : Type} (m : List (String × α)) (k : String) (v : α) :
    List (String × α) :=
  (k, v) :: m.filter (fun p => !(p.1 == k))

theorem alGet_alSet_self {α : Type} (m : List (String × α)) (k : String) (v : α) :
    alGet (alSet m k v) k = some v := by
  simp [alGet, alSet, List.find?]

theorem find?_filter_of_ne {α : Type} (m : List (String × α)) (k q : String)
    (hne : q ≠ k) :
    (m.filter (fun p => !(p.1 == k))).find? (fun p => p.1 == q) =
      m.find? (fun p => p.1 == q) := by
  induction m with
  | nil => rfl
  | cons a m ih =>
    by_cases h : a.1 = k
    · have hq : ¬(a.1 = q) := by
        rw [h]
        exact fun hh => hne hh.symm
      rw [List.filter_cons_of_neg (by simp [h]), List.find?_cons_of_neg _ (by simp [hq])]
      exact ih
    · rw [List.filter_cons_of_pos (by simp [h])]
      by_cases hq : a.1 = q
      · rw [List.find?_cons_of_pos _ (by simp [hq]), List.find?_cons_of_pos _ (by simp [hq])]
      · rw [List.find?_cons_of_neg _ (by simp [hq]), List.find?_cons_of_neg _ (by simp [hq])]
        exact ih

theorem alGet_alSet_ne {α : Type} (m : List (String × α)) (k q : String) (v : α)
    (hne : q ≠ k) :
    alGet (alSet m k v) q = alGet m q := by
  have hk : ¬(k = q) := fun hh => hne hh.symm
  unfold alGet alSet
  rw [List.find?_cons_of_neg _ (by simp [hk]), find?_filter_of_ne m k q hne]

/-! ## C3 — `applyRuleToNode`
(`src/unnamed/part_004` lines 72-86, with the `Style`/`CSSValue` data model
of `src/internal/browser/css_style.go`) -/

/-- `CSSValueType`. -/
inductive CSSValueType where
  | keyword | number | length | percentage | color | url | strVal | function
deriving DecidableEq, Repr

/-- `browser.Color` (`uint8` components, values kept in 0..255). -/
structure ColorRGBA where
  r : Nat
  g : Nat
  b : Nat
  a : Nat
deriving DecidableEq, Repr

/-- `browser.CSSValue`. -/
structure CSSValue where
  raw : String
  valueType : CSSValueType
  number : ℚ
  unit : String
  color : ColorRGBA
  keywords : List String
deriving DecidableEq, Repr

/-- The Go zero `CSSValue` with keyword type, as returned by
`style.GetProperty` for an absent property. -/
def emptyCSSValue : CSSValue :=
  { raw := "", valueType := .keyword, number := 0, unit := "",
    color := ⟨0, 0, 0, 0⟩, keywords := [] }

/-- A keyword-typed `CSSValue` literal. -/
def kwValue (r : String) : CSSValue := { emptyCSSValue with raw := r }

/-- A color-typed `CSSValue` literal whose color is left at the zero value,
as in `NewStyle`. -/
def colorValue (r : String) : CSSValue :=
  { emptyCSSValue with raw := r, valueType := .color }

/-- A pixel-length `CSSValue` literal. -/
def lengthPx (r : String) (n : ℚ) : CSSValue :=
  { emptyCSSValue with raw := r, valueType := .length, number := n, unit := "px" }

/-- A unitless number `CSSValue` literal. -/
def numberValue (r : String) (n : ℚ) : CSSValue :=
  { emptyCSSValue with raw := r, valueType := .number, number := n }

/-- `browser.style` (the `Style` implementation): a property map plus the
set of inherited property names. -/
structure Style where
  properties : List (String × CSSValue)
  inherited : List String
deriving DecidableEq, Repr

namespace Style

/-- `style.GetProperty`: the stored value, or the zero keyword value. -/
def getProperty (s : Style) (p : String) : CSSValue :=
  match alGet s.properties p with
  | some v => v
  | none => emptyCSSValue

/-- `style.SetProperty`. -/
def setProperty (s : Style) (p : String) (v : CSSValue) : Style :=
  { s with properties := alSet s.properties p v }

end Style

/-- `NewStyle` (`src/internal/browser/css_style.go` lines 49-118): the
user-agent base defaults every freshly created style starts from. -/
def newStyle : Style :=
  { properties :=
      [("color", colorValue "#000000"),
       ("background-color", colorValue "#FFFFFF"),
       ("font-family", kwValue "sans-serif"),
       ("font-size", lengthPx "16px" 16),
       ("font-weight", kwValue "normal"),
       ("font-style", kwValue "normal"),
       ("text-align", kwValue "left"),
       ("text-decoration", kwValue "none"),
       ("display", kwValue "block"),
       ("margin", lengthPx "0" 0),
       ("margin-top", lengthPx "0" 0),
       ("margin-right", lengthPx "0" 0),
       ("margin-bottom", lengthPx "0" 0),
       ("margin-left", lengthPx "0" 0),
       ("padding", lengthPx "0" 0),
       ("padding-top", lengthPx "0" 0),
       ("padding-right", lengthPx "0" 0),
       ("padding-bottom", lengthPx "0" 0),
       ("padding-left", lengthPx "0" 0),
       ("border", kwValue "none"),
       ("width", kwValue "auto"),
       ("height", kwValue "auto"),
       ("min-width", lengthPx "0" 0),
       ("min-height", lengthPx "0" 0),
       ("max-width", kwValue "none"),
       ("max-height", kwValue "none"),
       ("position", kwValue "static"),
       ("top", kwValue "auto"),
       ("right", kwValue "auto"),
       ("bottom", kwValue "auto"),
       ("left", kwValue "auto"),
       ("z-index", kwValue "auto"),
       ("opacity", numberValue "1" 1),
       ("visibility", kwValue "visible"),
       ("overflow", kwValue "visible"),
       ("overflow-x", kwValue "visible"),
       ("overflow-y", kwValue "visible"),
       ("line-height", kwValue "normal"),
       ("letter-spacing", kwValue "normal"),
       ("word-spacing", kwValue "normal"),
       ("text-transform", kwValue "none"),
       ("white-space", kwValue "normal"),
       ("cursor", kwValue "auto"),
       ("list-style", kwValue "none"),
       ("list-style-type", kwValue "disc"),
       ("list-style-position", kwValue "outside")],
    inherited :=
      ["color", "font-family", "font-size", "font-weight", "font-style",
       "text-align", "text-transform", "line-height", "letter-spacing",
       "word-spacing", "white-space", "visibility", "cursor", "list-style",
       "list-style-type", "list-style-position"] }

/-- `browser.CSSDeclaration`. -/
structure CSSDeclaration where
  property : String
  value : CSSValue
  important : Bool
deriving DecidableEq, Repr

/-- `cssApplicator.applyRuleToNode` (`src/unnamed/part_004` lines 72-86):
for each declaration of the matched rule, skip it when the existing stored
value is non-empty OR the declaration is not `!important`; write it
otherwise.  The rule's declaration map is given as its (distinct-keyed)
entry list. -/
def applyRuleToNode (decls : List (String × CSSDeclaration)) (style : Style) :
    Style :=
  decls.foldl
    (fun st pd =>
      let existing := st.getProperty pd.1
      if existing.raw ≠ "" ∨ pd.2.important = false then st
      else st.setProperty pd.1 pd.2.value)
    style

theorem getProperty_setProperty_self (s : Style) (p : String) (v : CSSValue) :
    (s.setProperty p v).getProperty p = v := by
  simp [Style.getProperty, Style.setProperty, alGet_alSet_self]

theorem getProperty_setProperty_ne (s : Style) (p q : String) (v : CSSValue)
    (hne : q ≠ p) :
    (s.setProperty p v).getProperty q = s.getProperty q := by
  simp [Style.getProperty, Style.setProperty, alGet_alSet_ne _ _ _ _ hne]

/-- Unfolding one step of `applyRuleToNode`. -/
theorem applyRuleToNode_cons (hd : String × CSSDeclaration)
    (tl : List (String × CSSDeclaration)) (style : Style) :
    applyRuleToNode (hd :: tl) style =
      applyRuleToNode tl
        (if (style.getProperty hd.1).raw ≠ "" ∨ hd.2.important = false then style
         else style.setProperty hd.1 hd.2.value) := rfl

/-- A fold step of `applyRuleToNode` only ever touches its own key. -/
theorem applyRuleToNode_getProperty_of_not_mem
    (decls : List (String × CSSDeclaration)) (style : Style) (p : String)
    (hp : p ∉ decls.map Prod.fst) :
    (applyRuleToNode decls style).getProperty p = style.getProperty p := by
  induction decls generalizing style with
  | nil => rfl
  | cons hd tl ih =>
    have hp1 : p ≠ hd.1 := by
      intro h
      exact hp (by simp [h])
    have hp2 : p ∉ tl.map Prod.fst := by
      intro h
      exact hp (by simp [h])
    rw [applyRuleToNode_cons]
    by_cases hc : (style.getProperty hd.1).raw ≠ "" ∨ hd.2.important = false
    · rw [if_pos hc]
      exact ih style hp2
    · rw [if_neg hc]
      rw [ih _ hp2, getProperty_setProperty_ne _ _ _ _ hp1]

/-- C3 (amended): a matched declaration is written exactly when the existing
stored value is empty AND the declaration is `!important`; in every other
case the stored value is left unchanged. -/
theorem applyRuleToNode_write_condition
    (decls : List (String × CSSDeclaration)) (style : Style)
    (hkeys : (decls.map Prod.fst).Nodup)
    (p : String) (d : CSSDeclaration) (hmem : (p, d) ∈ decls) :
    (applyRuleToNode decls style).getProperty p =
      (if (style.getProperty p).raw = "" ∧ d.important = true
       then d.value else style.getProperty p) := by
  induction decls generalizing style with
  | nil => cases hmem
  | cons hd tl ih =>
    have hnd := hkeys
    rw [List.map_cons, List.nodup_cons] at hnd
    rcases List.mem_cons.mp hmem with hhd | htl
    · subst hhd
      have hp : p ∉ tl.map Prod.fst := hnd.1
      rw [applyRuleToNode_cons]
      by_cases hc : (style.getProperty p).raw ≠ "" ∨ d.important = false
      · rw [if_pos hc]
        rw [applyRuleToNode_getProperty_of_not_mem tl style p hp]
        rcases hc with hraw | himp
        · rw [if_neg]
          intro hand
          exact hraw hand.1
        · rw [if_neg]
          intro hand
          rw [hand.2] at himp
          cases himp
      · rw [if_neg hc]
        push_neg at hc
        rw [applyRuleToNode_getProperty_of_not_mem tl _ p hp,
          getProperty_setProperty_self,
          if_pos ⟨hc.1, Bool.ne_false_iff.mp hc.2⟩]
    · have hp1 : p ≠ hd.1 := by
        intro h
        apply hnd.1
        rw [← h]
        exact List.mem_map_of_mem Prod.fst htl
      rw [applyRuleToNode_cons]
      by_cases hc : (style.getProperty hd.1).raw ≠ "" ∨ hd.2.important = false
      · rw [if_pos hc]
        exact ih style hnd.2 htl
      · rw [if_neg hc]
        rw [ih (style.setProperty hd.1 hd.2.value) hnd.2 htl,
          getProperty_setProperty_ne _ _ _ _ hp1]

/-- Witness for C3's amended theorem: an empty stored value and an
`!important` declaration is written; the same declaration without
`!important` is skipped (second conjunct via the counterexample condition
inside the `if`). -/
theorem applyRuleToNode_write_condition_witness :
    (applyRuleToNode
        [("border-radius",
          ⟨"border-radius", lengthPx "5px" 5, true⟩)] newStyle).getProperty
      "border-radius" =
      (if (newStyle.getProperty "border-radius").raw = "" ∧ true = true
       then lengthPx "5px" 5 else newStyle.getProperty "border-radius") :=
  applyRuleToNode_write_condition
    [("border-radius", ⟨"border-radius", lengthPx "5px" 5, true⟩)] newStyle
    (by decide) "border-radius" ⟨"border-radius", lengthPx "5px" 5, true⟩
    (by decide)

/-- C3 counterexample: a declaration whose stored value is empty but which is
NOT `!important` — the claim says it is written ("empty OR important"), but
`applyRuleToNode` skips it because its condition requires empty AND
important. -/
theorem applyRuleToNode_counterexample :
    (newStyle.getProperty "border-radius").raw = "" ∧
    ((applyRuleToNode
        [("border-radius",
          ⟨"border-radius", lengthPx "5px" 5, false⟩)] newStyle).getProperty
      "border-radius").raw = "" := by
  constructor
  · rfl
  · rfl

/-! ## C4 — the markup tokenizer (`src/unnamed/part_007`)

The Go tokenizer scans bytes (`rune(t.content[t.pos])`); the model scans a
`List Char`, which agrees for the ASCII inputs of the concrete theorems.
Loops carry a fuel argument (always called with enough fuel, since every
iteration advances `pos`). -/

/-- The tokenizer state: the input and the scan position. -/
structure TokState where
  content : List Char
  pos : Nat
deriving DecidableEq, Repr

namespace TokState

/-- The current character (`t.current`); the zero rune past the end. -/
def cur (st : TokState) : Char :=
  st.content.getD st.pos (Char.ofNat 0)

/-- `tokenizer.HasMore`. -/
def hasMore (st : TokState) : Bool :=
  decide (st.pos < st.content.length)

/-- `tokenizer.advance`. -/
def advance (st : TokState) : TokState :=
  if st.pos + 1 < st.content.length then { st with pos := st.pos + 1 }
  else { st with pos := st.content.length }

/-- `t.content[a:b]`. -/
def slice (st : TokState) (a b : Nat) : String :=
  String.mk ((st.content.drop a).take (b - a))

end TokState

/-- The token variants (`TokenType` plus the populated fields). -/
inductive Token where
  | textTok (s : String)
  | startTag (tag : String) (attrs : List (String × String))
  | endTag (tag : String)
  | selfClosingTag (tag : String) (attrs : List (String × String))
  | commentTok (s : String)
  | doctype (s : String)
  | eofTok
deriving DecidableEq, Repr

/-- The observable outcome of running code that can crash or fail to
terminate: a normal value, a runtime crash (a Go slice-bounds panic), or a
loop still running — for a fuelled loop, not finished within the given
fuel; genuine divergence is stated as `hung` for every fuel. -/
inductive RunRes (α : Type) where
  | ok (a : α)
  | crash
  | hung
deriving DecidableEq, Repr

/-- Sequencing: a crash or hang in the first step is the outcome of the
whole computation. -/
def RunRes.andThen {α β : Type} : RunRes α → (α → RunRes β) → RunRes β
  | .ok a, f => f a
  | .crash, _ => .crash
  | .hung, _ => .hung

namespace Tok

/-- `tokenizer.skipWhitespace`. -/
def skipWhitespaceF : Nat → TokState → TokState
  | 0, st => st
  | fuel + 1, st =>
    if st.hasMore && goIsSpace st.cur then skipWhitespaceF fuel st.advance else st

def skipWhitespace (st : TokState) : TokState :=
  skipWhitespaceF (st.content.length + 1) st

/-- `tokenizer.skipToChar`. -/
def skipToCharF (c : Char) : Nat → TokState → TokState
  | 0, st => st
  | fuel + 1, st =>
    if st.hasMore && !(st.cur == c) then skipToCharF c fuel st.advance else st

def skipToChar (c : Char) (st : TokState) : TokState :=
  skipToCharF c (st.content.length + 1) st

/-- `tokenizer.isValidTagChar`. -/
def isValidTagChar (c : Char) : Bool :=
  !goIsSpace c && !(c == '>') && !(c == '/')

/-- The scan loop of `extractTagName`/`extractAttributeName`/... : advance
while the predicate holds. -/
def scanWhileF (p : Char → Bool) : Nat → TokState → TokState
  | 0, st => st
  | fuel + 1, st =>
    if st.hasMore && p st.cur then scanWhileF p fuel st.advance else st

def scanWhile (p : Char → Bool) (st : TokState) : TokState :=
  scanWhileF p (st.content.length + 1) st

/-- `tokenizer.extractTagName`: scan valid tag characters and lower-case the
slice (`strings.ToLower`, characterwise for ASCII input). -/
def extractTagName (st : TokState) : String × TokState :=
  let st1 := scanWhile isValidTagChar st
  (String.mk (((st.content.drop st.pos).take (st1.pos - st.pos)).map Char.toLower), st1)

/-- `tokenizer.extractAttributeName` (no lower-casing here; the caller
lower-cases). -/
def extractAttributeName (st : TokState) : String × TokState :=
  let st1 := scanWhile
    (fun c => !goIsSpace c && !(c == '=') && !(c == '>') && !(c == '/')) st
  (st.slice st.pos st1.pos, st1)

/-- `tokenizer.extractQuotedValue`. -/
def extractQuotedValue (st : TokState) : String × TokState :=
  let quote := st.cur
  let st1 := st.advance
  let st2 := scanWhile (fun c => !(c == quote)) st1
  let value := st1.slice st1.pos st2.pos
  (value, if st2.hasMore then st2.advance else st2)

/-- `tokenizer.extractUnquotedValue`. -/
def extractUnquotedValue (st : TokState) : String × TokState :=
  let st1 := scanWhile
    (fun c => !goIsSpace c && !(c == '>') && !(c == '/')) st
  (st.slice st.pos st1.pos, st1)

/-- `tokenizer.extractAttributeValue`. -/
def extractAttributeValue (st : TokState) : String × TokState :=
  if !(st.cur == '=') then ("", st)
  else
    let st1 := skipWhitespace st.advance
    if !st1.hasMore then ("", st1)
    else if st1.cur == '"' || st1.cur == '\x27' then extractQuotedValue st1
    else extractUnquotedValue st1

/-- `tokenizer.parseSingleAttribute`: returns the (lower-cased) name and the
value; an empty name means no attribute was parsed. -/
def parseSingleAttribute (st : TokState) : (String × String) × TokState :=
  let st1 := skipWhitespace st
  if !st1.hasMore || st1.cur == '>' || st1.cur == '/' then (("", ""), st1)
  else
    let (name, st2) := extractAttributeName st1
    if name = "" then (("", ""), st2)
    else
      let st3 := skipWhitespace st2
      let (value, st4) := extractAttributeValue st3
      ((String.mk (name.data.map Char.toLower), value), st4)

/-- `tokenizer.extractAttributes`: loop `parseSingleAttribute` until `>` or
`/`; named attributes overwrite in the map.  The loop body does not advance
the position when `parseSingleAttribute` stops at a bare `=` (it returns an
empty name without consuming it), so the Go loop runs forever there; fuel
running out reports the loop as still running. -/
def extractAttributesF : Nat → List (String × String) → TokState →
    RunRes (List (String × String) × TokState)
  | 0, _, _ => .hung
  | fuel + 1, acc, st =>
    if st.hasMore && !(st.cur == '>') && !(st.cur == '/') then
      let (attr, st1) := parseSingleAttribute st
      let acc1 := if attr.1 = "" then acc else alSet acc attr.1 attr.2
      extractAttributesF fuel acc1 st1
    else .ok (acc, st)

def extractAttributes (isClosing : Bool) (st : TokState) :
    RunRes (List (String × String) × TokState) :=
  if isClosing then .ok ([], st)
  else extractAttributesF (st.content.length + 1) [] st

/-- `tokenizer.parseComment` (entered with `pos` at the opening `--`). -/
def parseCommentF : Nat → Nat → TokState → Token × TokState
  | 0, start, st => (.commentTok (st.slice start st.content.length), { st with pos := st.content.length })
  | fuel + 1, start, st =>
    if st.pos + 1 < st.content.length then
      if st.slice st.pos (st.pos + 2) = "--" then
        let content := st.slice start st.pos
        let st1 := skipToChar '>' { st with pos := st.pos + 2 }
        (.commentTok content, if st1.hasMore then st1.advance else st1)
      else parseCommentF fuel start st.advance
    else (.commentTok (st.slice start st.content.length), { st with pos := st.content.length })

def parseComment (st : TokState) : Token × TokState :=
  let st0 : TokState := { st with pos := st.pos + 2 }
  parseCommentF (st.content.length + 1) st0.pos st0

/-- `tokenizer.parseDoctype` (entered with `pos` at the `DOCTYPE` word). -/
def parseDoctype (st : TokState) : Token × TokState :=
  let st1 := skipToChar '>' st
  let content := st.slice st.pos st1.pos
  (.doctype content, if st1.hasMore then st1.advance else st1)

/-- `tokenizer.parseCommentOrDoctype` (entered with `pos` at the `!`); a
`none` token is the Go error return, with the tokenizer state as mutated so
far. -/
def parseCommentOrDoctype (st : TokState) : Option Token × TokState :=
  if !(st.cur == '!') then (none, st)
  else
    let st1 := st.advance
    if !st1.hasMore then (some (.textTok "<!"), st1)
    else if st1.pos + 2 < st1.content.length ∧ st1.slice st1.pos (st1.pos + 2) = "--" then
      let (tok, st2) := parseComment st1
      (some tok, st2)
    else if st1.pos + 7 < st1.content.length ∧
        String.mk ((st1.slice st1.pos (st1.pos + 7)).data.map Char.toUpper) = "DOCTYPE" then
      let (tok, st2) := parseDoctype st1
      (some tok, st2)
    else
      let st2 := skipToChar '>' st1
      (some (.commentTok ""), if st2.hasMore then st2.advance else st2)

/-- `tokenizer.parseTag` (entered at the `<`); a `none` token is the Go error
return.  The empty-tag-name branch slices `t.content[:t.pos+1]`, which is a
runtime panic when `pos + 1` exceeds the input length (a dangling `<` at end
of input leaves `pos = len`); a crash or hang in `extractAttributes`
propagates. -/
def parseTag (st : TokState) : RunRes (Option Token × TokState) :=
  if !st.hasMore || !(st.cur == '<') then .ok (none, st)
  else
    let st1 := st.advance
    if st1.cur == '!' then .ok (parseCommentOrDoctype st1)
    else
      let isClosing := st1.cur == '/'
      let st2 := if isClosing then st1.advance else st1
      let (tagName, st3) := extractTagName st2
      if tagName = "" then
        if st3.content.length < st3.pos + 1 then .crash
        else .ok (some (.textTok (String.mk (st3.content.take (st3.pos + 1)))), st3)
      else
        let st4 := skipWhitespace st3
        (extractAttributes isClosing st4).andThen fun r =>
          let attrs := r.1
          let st5 := r.2
          let selfClosing := st5.cur == '/'
          let st6 := if selfClosing then st5.advance else st5
          let st7 := if st6.hasMore && !(st6.cur == '>') then skipToChar '>' st6 else st6
          let st8 := if st7.hasMore then st7.advance else st7
          if isClosing then .ok (some (.endTag tagName), st8)
          else if selfClosing then .ok (some (.selfClosingTag tagName attrs), st8)
          else .ok (some (.startTag tagName attrs), st8)

/-- `tokenizer.parseText`: scan to the next `<`; a whitespace-only non-empty
slice collapses to a single-space text token. -/
def parseText (st : TokState) : Token × TokState :=
  let st1 := scanWhile (fun c => !(c == '<')) st
  let text := st.slice st.pos st1.pos
  if trimSpace text = "" ∧ text.length > 0 then (.textTok " ", st1)
  else (.textTok text, st1)

/-- `tokenizer.NextToken`: skip leading white space first, then dispatch on
`<`. -/
def nextToken (st : TokState) : RunRes (Option Token × TokState) :=
  let st1 := skipWhitespace st
  if !st1.hasMore then .ok (some .eofTok, st1)
  else if st1.cur == '<' then parseTag st1
  else
    let (tok, st2) := parseText st1
    .ok (some tok, st2)

/-- The token stream the tree builder consumes (`htmlParser.Parse` loop,
`src/internal/browser/html.go` lines 96-105): tokens until end of input or
the EOF token, erroring calls skipped (`continue`); a crash or hang inside
`NextToken` is the outcome of the whole scan. -/
def tokensF : Nat → TokState → RunRes (List Token)
  | 0, _ => .hung
  | fuel + 1, st =>
    if st.hasMore then
      match nextToken st with
      | .crash => .crash
      | .hung => .hung
      | .ok (none, st1) => tokensF fuel st1
      | .ok (some .eofTok, _) => .ok []
      | .ok (some tok, st1) =>
        (tokensF fuel st1).andThen fun ts => .ok (tok :: ts)
    else .ok []

/-- Tokenize a whole input. -/
def tokenize (content : String) : RunRes (List Token) :=
  tokensF (content.length + 1) ⟨content.data, 0⟩

end Tok

/-- C4: the failing input.  Tokenizing `"<a> </a>"` yields only the start
and end tags: the whitespace-only run between the two tags is consumed by
`NextToken`'s leading `skipWhitespace` and produces NO text token at all —
it is dropped, not collapsed to a single-space token.  (The collapse branch
inside `parseText` is unreachable for ASCII runs because `parseText` is only
entered at a non-space character.) -/
theorem whitespace_run_dropped_by_tokenizer :
    Tok.tokenize "<a> </a>" = .ok [.startTag "a" [], .endTag "a"] ∧
    (match Tok.tokenize "<a> </a>" with
     | .ok ts => ts.all (fun t => match t with | .textTok _ => false | _ => true)
     | _ => false) = true := by
  constructor
  · decide
  · decide

theorem dropWhile_length_le {α : Type} (p : α → Bool) (l : List α) :
    (l.dropWhile p).length ≤ l.length := by
  induction l with
  | nil => simp [List.dropWhile]
  | cons a l ih =>
    rw [List.dropWhile_cons]
    by_cases h : p a
    · simp only [h, if_true]
      exact Nat.le_trans ih (Nat.le_succ _)
    · simp [h]

/-! ## The DOM node model and the selector matcher
(`src/unnamed/part_003` nodes, `src/internal/browser/css_style.go`
`selectorMatcher`)

A node is a rose tree; a located node carries its ancestor chain, each entry
being the ancestor node together with the child index leading to us — Go's
parent pointers and pointer-identity comparisons (`child == node`) correspond
to child-index equality in this model. -/

/-- `browser.Node` (element / text / comment tree). -/
inductive PNode where
  | element (tag : String) (attrs : List (String × String)) (children : List PNode)
  | textNode (s : String)
  | commentNode (s : String)

namespace PNode

/-- `Node.GetType` as a discriminator: is this an element node? -/
def isElement : PNode → Bool
  | .element _ _ _ => true
  | _ => false

/-- `Node.GetTag` (empty for text/comment nodes). -/
def tag : PNode → String
  | .element t _ _ => t
  | _ => ""

/-- `Node.GetChildren`. -/
def children : PNode → List PNode
  | .element _ _ cs => cs
  | _ => []

/-- `Node.GetAttribute` (the key is lower-cased first; text/comment nodes
have no attributes). -/
def getAttr : PNode → String → Option String
  | .element _ attrs _, key => alGet attrs (String.mk (key.data.map Char.toLower))
  | _, _ => none

/-- `Node.GetID`. -/
def getID (n : PNode) : String :=
  (n.getAttr "id").getD ""

/-- `Node.HasClass`: the class attribute, split into fields, contains the
class name. -/
def hasClass (n : PNode) (className : String) : Bool :=
  match n.getAttr "class" with
  | none => false
  | some cls => (fieldsOf cls.data).any (fun w => w == className.data)
where
  /-- `strings.Fields`: maximal runs of non-space characters. -/
  fieldsOf : List Char → List (List Char)
    | [] => []
    | c :: rest =>
      if goIsSpace c then fieldsOf rest
      else (c :: rest.takeWhile (fun d => !goIsSpace d)) ::
        fieldsOf (rest.dropWhile (fun d => !goIsSpace d))
  termination_by l => l.length
  decreasing_by
    · simp only [List.length_cons]
      omega
    · have := dropWhile_length_le (fun d => !goIsSpace d) rest
      simp only [List.length_cons]
      omega

end PNode

/-- A located node: the node itself plus the chain of its ancestors
(nearest first), each with the child index leading towards the node. -/
structure NodeLoc where
  node : PNode
  ancestors : List (PNode × Nat)

namespace NodeLoc

/-- `Node.GetParent`. -/
def parent (loc : NodeLoc) : Option NodeLoc :=
  match loc.ancestors with
  | [] => none
  | (p, _) :: rest => some ⟨p, rest⟩

/-- Our index among the parent's children
(`findNodeIndexInSiblings` under the index-is-identity convention). -/
def siblingIndex (loc : NodeLoc) : Option Nat :=
  match loc.ancestors with
  | [] => none
  | (_, i) :: _ => some i

end NodeLoc

namespace Matcher

/-- `strings.Contains` for list-of-character substrings. -/
def containsSub (l sub : List Char) : Bool :=
  (List.range (l.length + 1)).any (fun i => sub.isPrefixOf (l.drop i))

/-- The index of the first occurrence of `sub` in `l`, if any. -/
def firstIndexOfSub (l sub : List Char) : Option Nat :=
  (List.range (l.length + 1)).find? (fun i => sub.isPrefixOf (l.drop i))

/-- `strings.SplitN(s, sep, 2)`: the text before and after the first
occurrence of `sep` (none if `sep` does not occur). -/
def splitOnceSub (l sub : List Char) : Option (List Char × List Char) :=
  match firstIndexOfSub l sub with
  | none => none
  | some i => some (l.take i, l.drop (i + sub.length))

/-- `strings.HasPrefix`. -/
def hasPrefixStr (s pre : String) : Bool :=
  pre.data.isPrefixOf s.data

/-- `strings.HasSuffix`. -/
def hasSuffixStr (s suf : String) : Bool :=
  suf.data.reverse.isPrefixOf s.data.reverse

/-- `strings.EqualFold` (ASCII case folding, as used on tag names). -/
def equalFold (a b : String) : Bool :=
  a.data.map Char.toLower == b.data.map Char.toLower

/-- `strings.Fields` (fuel-structural so it evaluates in the kernel; the
fuel is always sufficient since every step consumes input). -/
def fieldsF : Nat → List Char → List String
  | 0, _ => []
  | _ + 1, [] => []
  | fuel + 1, c :: rest =>
    if goIsSpace c then fieldsF fuel rest
    else String.mk (c :: rest.takeWhile (fun d => !goIsSpace d)) ::
      fieldsF fuel (rest.dropWhile (fun d => !goIsSpace d))

def fields (s : String) : List String :=
  fieldsF (s.data.length + 1) s.data

/-- `strings.Split` on a single-character separator (keeping empty parts). -/
def splitOnChar (c : Char) (l : List Char) : List (List Char) :=
  go l []
where
  go : List Char → List Char → List (List Char)
    | [], acc => [acc.reverse]
    | d :: rest, acc =>
      if d = c then acc.reverse :: go rest [] else go rest (d :: acc)

/-- `selectorMatcher.parseCompoundSelector`: split a compound selector at
`.`, `#`, `[`, `:` boundaries (a `]` closes the current part). -/
def parseCompoundSelector (selector : String) : List String :=
  go selector.data []
where
  go : List Char → List Char → List String
    | [], acc => if acc.isEmpty then [] else [String.mk acc.reverse]
    | ch :: rest, acc =>
      if ch = '.' ∨ ch = '#' ∨ ch = '[' ∨ ch = ':' then
        if acc.isEmpty then go rest [ch]
        else String.mk acc.reverse :: go rest [ch]
      else if ch = ']' then
        String.mk (ch :: acc).reverse :: go rest []
      else go rest (ch :: acc)

/-- `selectorMatcher.parseAttributeSelector`: try the operators in order and
split at the first one contained in the content; the value is trimmed of
white space and quotes. -/
def parseAttributeSelector (content : List Char) :
    String × String × String :=
  tryOps ["*=", "^=", "$=", "~=", "|=", "="]
where
  trimQuotes (l : List Char) : List Char :=
    let isQ := fun c => c == '"' || c == '\x27'
    ((l.dropWhile isQ).reverse.dropWhile isQ).reverse
  tryOps : List String → String × String × String
    | [] => ("", "", "")
    | op :: rest =>
      match splitOnceSub content op.data with
      | some (name, value) =>
        (String.mk name, op, String.mk (trimQuotes (trimSpaceList value)))
      | none => tryOps rest

/-- `selectorMatcher.matchesWordInList` (`~=`). -/
def matchesWordInList (attrValue value : String) : Bool :=
  (fields attrValue).any (fun w => w == value)

/-- `selectorMatcher.matchesAttributeOperator`. -/
def matchesAttributeOperator (attrValue op value : String) : Bool :=
  if op = "=" then attrValue == value
  else if op = "*=" then containsSub attrValue.data value.data
  else if op = "^=" then hasPrefixStr attrValue value
  else if op = "$=" then hasSuffixStr attrValue value
  else if op = "~=" then matchesWordInList attrValue value
  else if op = "|=" then
    attrValue == value || hasPrefixStr attrValue (value ++ "-")
  else false

/-- `selectorMatcher.matchesAttributeSelector`. -/
def matchesAttributeSelector (loc : NodeLoc) (selector : String) : Bool :=
  if !(hasPrefixStr selector "[" && hasSuffixStr selector "]") then false
  else
    let content := (selector.data.drop 1).take (selector.data.length - 2)
    if !containsSub content ['='] then
      (loc.node.getAttr (String.mk content)).isSome
    else
      let (attrName, op, value) := parseAttributeSelector content
      if attrName = "" then false
      else
        match loc.node.getAttr (trimSpace attrName) with
        | none => false
        | some attrValue => matchesAttributeOperator attrValue op value

/-- `isFirstChild`: the first element child of the parent is this node
(no parent counts as true). -/
def isFirstChild (loc : NodeLoc) : Bool :=
  match loc.ancestors with
  | [] => true
  | (p, i) :: _ =>
    match (p.children.enum.find? (fun ci => ci.2.isElement)) with
    | some ci => decide (ci.1 = i)
    | none => false

/-- `isLastChild`. -/
def isLastChild (loc : NodeLoc) : Bool :=
  match loc.ancestors with
  | [] => true
  | (p, i) :: _ =>
    match (p.children.enum.reverse.find? (fun ci => ci.2.isElement)) with
    | some ci => decide (ci.1 = i)
    | none => false

/-- `isFirstOfType`. -/
def isFirstOfType (loc : NodeLoc) : Bool :=
  match loc.ancestors with
  | [] => true
  | (p, i) :: _ =>
    match (p.children.enum.find?
        (fun ci => ci.2.isElement && ci.2.tag == loc.node.tag)) with
    | some ci => decide (ci.1 = i)
    | none => false

/-- `isLastOfType`. -/
def isLastOfType (loc : NodeLoc) : Bool :=
  match loc.ancestors with
  | [] => true
  | (p, i) :: _ =>
    match (p.children.enum.reverse.find?
        (fun ci => ci.2.isElement && ci.2.tag == loc.node.tag)) with
    | some ci => decide (ci.1 = i)
    | none => false

/-- `isOnlyChild`. -/
def isOnlyChild (loc : NodeLoc) : Bool :=
  match loc.ancestors with
  | [] => true
  | (p, _) :: _ =>
    decide ((p.children.filter (fun c => c.isElement)).length = 1)

/-- `isOnlyOfType`. -/
def isOnlyOfType (loc : NodeLoc) : Bool :=
  match loc.ancestors with
  | [] => true
  | (p, _) :: _ =>
    decide ((p.children.filter
      (fun c => c.isElement && c.tag == loc.node.tag)).length = 1)

/-- `selectorMatcher.matchesPseudoSelector`. -/
def matchesPseudoSelector (loc : NodeLoc) (pseudoClass : String) : Bool :=
  let pc := String.mk (pseudoClass.data.map Char.toLower)
  if pc = "first-child" then isFirstChild loc
  else if pc = "last-child" then isLastChild loc
  else if pc = "first-of-type" then isFirstOfType loc
  else if pc = "last-of-type" then isLastOfType loc
  else if pc = "only-child" then isOnlyChild loc
  else if pc = "only-of-type" then isOnlyOfType loc
  else if pc = "empty" then loc.node.children.isEmpty
  else if pc = "root" then (loc.parent).isNone
  else false

/-- `selectorMatcher.matchesSelectorPart`. -/
def matchesSelectorPart (loc : NodeLoc) (part : String) : Bool :=
  match part.data with
  | [] => true
  | c :: rest =>
    if c = '.' then loc.node.hasClass (String.mk rest)
    else if c = '#' then loc.node.getID == String.mk rest
    else if c = '[' then matchesAttributeSelector loc part
    else if c = ':' then matchesPseudoSelector loc (String.mk rest)
    else equalFold loc.node.tag part

/-- `selectorMatcher.matchesSimpleSelector`. -/
def matchesSimpleSelector (loc : NodeLoc) (selector : String) : Bool :=
  if !loc.node.isElement then false
  else
    let sel := trimSpace selector
    if sel = "*" then true
    else (parseCompoundSelector sel).all (matchesSelectorPart loc)

/-- `selectorMatcher.hasMatchingAncestor`: walk the parent chain upwards,
matching the ancestor selectors right to left (`selsRev` is the ancestor
selector list reversed, so its head is matched first). -/
def hasMatchingAncestor : List (PNode × Nat) → List String → Bool
  | _, [] => true
  | [], _ :: _ => false
  | (p, _) :: rest, sel :: sels =>
    if matchesSimpleSelector ⟨p, rest⟩ sel then
      match sels with
      | [] => true
      | _ => hasMatchingAncestor rest sels
    else hasMatchingAncestor rest (sel :: sels)

/-- `selectorMatcher.matchesComplexSelector` (descendant combinator). -/
def matchesComplexSelector (loc : NodeLoc) (selector : String) : Bool :=
  let parts := fields selector
  if parts.length < 2 then matchesSimpleSelector loc selector
  else
    let targetSelector := parts.getLastD ""
    if !matchesSimpleSelector loc targetSelector then false
    else hasMatchingAncestor loc.ancestors (parts.dropLast.reverse)

/-- `selectorMatcher.matchesChildSelector` (`>`). -/
def matchesChildSelector (loc : NodeLoc) (selector : String) : Bool :=
  let parts := splitOnChar '>' selector.data
  if !(parts.length = 2) then false
  else
    let parentSelector := trimSpace (String.mk (parts.getD 0 []))
    let childSelector := trimSpace (String.mk (parts.getD 1 []))
    if !matchesSimpleSelector loc childSelector then false
    else
      match loc.parent with
      | none => false
      | some pl => matchesSimpleSelector pl parentSelector

/-- `selectorMatcher.hasPreviousSiblingMatching` (for `+`). -/
def hasPreviousSiblingMatching (loc : NodeLoc) (selector : String) : Bool :=
  match loc.ancestors with
  | [] => false
  | (p, i) :: rest =>
    if i = 0 then false
    else
      match p.children.getD (i - 1) (.textNode "") with
      | prev => matchesSimpleSelector ⟨prev, (p, i - 1) :: rest⟩ selector

/-- `selectorMatcher.matchesAdjacentSiblingSelector` (`+`). -/
def matchesAdjacentSiblingSelector (loc : NodeLoc) (selector : String) : Bool :=
  let parts := splitOnChar '+' selector.data
  if !(parts.length = 2) then false
  else
    let siblingSelector := trimSpace (String.mk (parts.getD 0 []))
    let targetSelector := trimSpace (String.mk (parts.getD 1 []))
    if !matchesSimpleSelector loc targetSelector then false
    else hasPreviousSiblingMatching loc siblingSelector

/-- `selectorMatcher.hasAnyPreviousSiblingMatching` (for `~`). -/
def hasAnyPreviousSiblingMatching (loc : NodeLoc) (selector : String) : Bool :=
  match loc.ancestors with
  | [] => false
  | (p, i) :: rest =>
    (List.range i).any
      (fun j =>
        matchesSimpleSelector
          ⟨p.children.getD j (.textNode ""), (p, j) :: rest⟩ selector)

/-- `selectorMatcher.matchesGeneralSiblingSelector` (`~`). -/
def matchesGeneralSiblingSelector (loc : NodeLoc) (selector : String) : Bool :=
  let parts := splitOnChar '~' selector.data
  if !(parts.length = 2) then false
  else
    let siblingSelector := trimSpace (String.mk (parts.getD 0 []))
    let targetSelector := trimSpace (String.mk (parts.getD 1 []))
    if !matchesSimpleSelector loc targetSelector then false
    else hasAnyPreviousSiblingMatching loc siblingSelector

/-- `selectorMatcher.MatchesSelector`: dispatch on the combinator present in
the selector. -/
def matchesSelector (loc : NodeLoc) (selector : String) : Bool :=
  if selector = "" then false
  else
    let sel := trimSpace selector
    if containsChar sel ' ' && !containsChar sel ':' then
      matchesComplexSelector loc sel
    else if containsChar sel '>' then matchesChildSelector loc sel
    else if containsChar sel '+' then matchesAdjacentSiblingSelector loc sel
    else if containsChar sel '~' then matchesGeneralSiblingSelector loc sel
    else matchesSimpleSelector loc sel

end Matcher

/-! ## C2 — the part_005 cascade (`cssApplicator.ComputeStyle`)

`ComputedStyle.Properties` is a string-to-string map.  The numeric work in
`computeFinalValues` (`strconv.ParseFloat` / `strconv.FormatFloat(…,'f',2,64)`)
is modelled with exact scaled-decimal integers (`Dec`, the value
`m / 10^e`), which agrees with `float64` on the short decimal literals this
code handles and lets the kernel evaluate the pipeline. -/

/-- An exact decimal number `m / 10^e` (the model of the `float64` values in
the cascade's font-size arithmetic). -/
structure Dec where
  m : Int
  e : Nat
deriving DecidableEq, Repr

namespace Dec

/-- Multiplication (`emValue * parentFontSize` and friends). -/
def mul (a b : Dec) : Dec := ⟨a.m * b.m, a.e + b.e⟩

/-- Division by `10^k` (`percentValue / 100.0`). -/
def divPow10 (a : Dec) (k : Nat) : Dec := ⟨a.m, a.e + k⟩

/-- Round `a / b` (with `b > 0`) to the nearest integer, ties to even —
the rounding `strconv.FormatFloat` applies. -/
def roundHalfEvenDiv (a : Int) (b : Int) : Int :=
  let q := a.ediv b
  let r := a - q * b
  if 2 * r < b then q
  else if b < 2 * r then q + 1
  else if q % 2 = 0 then q else q + 1

end Dec

/-- Decimal digits of a natural number (structural fuel recursion). -/
def natToStrF : Nat → Nat → List Char
  | 0, _ => []
  | fuel + 1, n =>
    if n < 10 then [Char.ofNat (48 + n)]
    else natToStrF fuel (n / 10) ++ [Char.ofNat (48 + n % 10)]

def natToStr (n : Nat) : String :=
  String.mk (natToStrF (n + 1) n)

/-- `strconv.FormatFloat(value, 'f', 2, 64)`: the value printed with exactly
two decimals. -/
def formatDec2 (d : Dec) : String :=
  let scaled := Dec.roundHalfEvenDiv (d.m * 100) (10 ^ d.e : Nat)
  let sign := if scaled < 0 then "-" else ""
  let n := scaled.natAbs
  let frac := n % 100
  let fracStr := if frac < 10 then "0" ++ natToStr frac else natToStr frac
  sign ++ natToStr (n / 100) ++ "." ++ fracStr

/-- `strconv.ParseFloat` restricted to plain decimal literals
(`[+-]?digits[.digits]`), the only shapes the cascade feeds it; anything
else is a parse error (`none`). -/
def parseFloatDec (s : String) : Option Dec :=
  let l := s.data
  let (neg, l1) : Bool × List Char :=
    match l with
    | '-' :: r => (true, r)
    | '+' :: r => (false, r)
    | r => (false, r)
  let intPart := l1.takeWhile Char.isDigit
  let rest := l1.dropWhile Char.isDigit
  let digitsVal := fun (ds : List Char) =>
    ds.foldl (fun acc c => acc * 10 + (c.toNat - 48)) 0
  match rest with
  | [] =>
    if intPart.isEmpty then none
    else some ⟨(if neg then -1 else 1) * (digitsVal intPart : Nat), 0⟩
  | '.' :: fr =>
    let fracPart := fr.takeWhile Char.isDigit
    if !(fr.dropWhile Char.isDigit).isEmpty then none
    else if intPart.isEmpty ∧ fracPart.isEmpty then none
    else
      some ⟨(if neg then -1 else 1) *
        ((digitsVal intPart : Nat) * 10 ^ fracPart.length + (digitsVal fracPart : Nat)),
        fracPart.length⟩
  | _ => none

/-- `strings.TrimSuffix`. -/
def trimSuffixStr (s suf : String) : String :=
  if Matcher.hasSuffixStr s suf then
    String.mk (s.data.take (s.data.length - suf.data.length))
  else s

namespace Cascade

/-- `browser.CSSRule` (its `Declarations` and `Specificity` maps as entry
lists). -/
structure CSSRuleM where
  selectors : List String
  declarations : List (String × CSSDeclaration)
  specMap : List (String × Nat)
deriving Repr

/-- `browser.CSS`. -/
structure CSSM where
  rules : List CSSRuleM
  mediaRules : List (String × List CSSRuleM)
  imports : List String
  charset : String
deriving Repr

/-- `createInheritedPropertiesMap` (`src/unnamed/part_005` lines 35-40). -/
def inheritedPropsList : List String :=
  ["color", "font-family", "font-size", "font-style", "font-weight",
   "line-height", "text-align", "text-decoration", "white-space"]

/-- `createDefaultValuesMap` (`src/unnamed/part_005` lines 42-51). -/
def defaultValuesList : List (String × String) :=
  [("display", "inline"), ("color", "#000000"),
   ("background-color", "transparent"),
   ("font-size", "16px"), ("font-weight", "normal"), ("font-style", "normal"),
   ("white-space", "normal"), ("line-height", "normal"), ("text-align", "left"),
   ("text-decoration", "none"),
   ("margin-top", "0px"), ("margin-bottom", "0px"), ("margin-left", "0px"),
   ("margin-right", "0px"),
   ("padding-top", "0px"), ("padding-bottom", "0px"), ("padding-left", "0px"),
   ("padding-right", "0px")]

/-- `cssApplicator.getElementDefaults` (`src/unnamed/part_005` lines 119-200). -/
def getElementDefaults (tag : String) : List (String × String) :=
  if tag = "html" ∨ tag = "body" ∨ tag = "div" ∨ tag = "blockquote" ∨
      tag = "section" ∨ tag = "article" ∨ tag = "aside" ∨ tag = "nav" ∨
      tag = "main" ∨ tag = "header" ∨ tag = "footer" then
    [("display", "block")]
  else if tag = "p" then
    [("display", "block"), ("margin-top", "1em"), ("margin-bottom", "1em")]
  else if tag = "h1" then
    [("display", "block"), ("font-size", "2em"), ("font-weight", "bold"),
     ("margin-top", "0.67em"), ("margin-bottom", "0.67em")]
  else if tag = "h2" then
    [("display", "block"), ("font-size", "1.5em"), ("font-weight", "bold"),
     ("margin-top", "0.75em"), ("margin-bottom", "0.75em")]
  else if tag = "h3" then
    [("display", "block"), ("font-size", "1.17em"), ("font-weight", "bold"),
     ("margin-top", "0.83em"), ("margin-bottom", "0.83em")]
  else if tag = "h4" then
    [("display", "block"), ("font-size", "1em"), ("font-weight", "bold"),
     ("margin-top", "1.12em"), ("margin-bottom", "1.12em")]
  else if tag = "h5" then
    [("display", "block"), ("font-size", "0.83em"), ("font-weight", "bold"),
     ("margin-top", "1.5em"), ("margin-bottom", "1.5em")]
  else if tag = "h6" then
    [("display", "block"), ("font-size", "0.75em"), ("font-weight", "bold"),
     ("margin-top", "1.67em"), ("margin-bottom", "1.67em")]
  else if tag = "pre" then
    [("display", "block"), ("white-space", "pre"), ("font-family", "monospace"),
     ("background-color", "#f5f5f5"), ("margin-top", "1em"),
     ("margin-bottom", "1em"), ("padding", "0.5em")]
  else if tag = "ul" ∨ tag = "ol" then
    [("display", "block"), ("margin-top", "1em"), ("margin-bottom", "1em"),
     ("padding-left", "2em")]
  else if tag = "li" then [("display", "list-item")]
  else if tag = "b" ∨ tag = "strong" then [("font-weight", "bold")]
  else if tag = "i" ∨ tag = "em" then [("font-style", "italic")]
  else if tag = "a" then
    [("color", "#0000EE"), ("text-decoration", "underline")]
  else if tag = "button" then
    [("display", "inline-block"), ("padding", "0.25em 0.5em"),
     ("border", "1px solid #ccc"), ("background-color", "#f0f0f0")]
  else if tag = "br" then [("display", "inline")]
  else if tag = "span" ∨ tag = "code" ∨ tag = "small" ∨ tag = "big" then
    [("display", "inline")]
  else []

/-- `cssApplicator.setDefaultStyles` and `setElementSpecificDefaults`. -/
def setDefaultStyles (loc : NodeLoc) : List (String × String) :=
  let base := defaultValuesList.foldl (fun st pv => alSet st pv.1 pv.2) []
  if loc.node.isElement then
    (getElementDefaults (String.mk (loc.node.tag.data.map Char.toLower))).foldl
      (fun st pv => alSet st pv.1 pv.2) base
  else base

/-- `cssApplicator.findRuleMatch`: the first selector of the rule that
matches wins, with the matcher's cached specificity. -/
def findRuleMatch (loc : NodeLoc) (rule : CSSRuleM) : Option (CSSRuleM × Nat) :=
  match rule.selectors.find? (fun sel => Matcher.matchesSelector loc sel) with
  | some sel => some (rule, calculateSelectorSpecificity sel)
  | none => none

/-- `cssApplicator.collectMatchingRules`. -/
def collectMatchingRules (loc : NodeLoc) (css : CSSM) :
    List (CSSRuleM × Nat) :=
  css.rules.filterMap (findRuleMatch loc)

/-- A placeholder for out-of-range indexed access in the sort below (never
hit for in-range indices). -/
def ruleDummy : CSSRuleM × Nat := (⟨[], [], []⟩, 0)

/-- The inner `j` loop of `sortMatchesBySpecificity`. -/
def exchangeInner : Nat → Nat → Nat → List (CSSRuleM × Nat) →
    List (CSSRuleM × Nat)
  | 0, _, _, l => l
  | fuel + 1, i, j, l =>
    if j < l.length then
      let li := l.getD i ruleDummy
      let lj := l.getD j ruleDummy
      let l1 := if li.2 > lj.2 then (l.set i lj).set j li else l
      exchangeInner fuel i (j + 1) l1
    else l

/-- The outer `i` loop of `sortMatchesBySpecificity`. -/
def exchangeOuter : Nat → Nat → List (CSSRuleM × Nat) →
    List (CSSRuleM × Nat)
  | 0, _, l => l
  | fuel + 1, i, l =>
    if i + 1 < l.length then
      exchangeOuter fuel (i + 1) (exchangeInner (l.length + 1) i (i + 1) l)
    else l

/-- `cssApplicator.sortMatchesBySpecificity` (an index-pair exchange sort,
ascending). -/
def sortMatchesBySpecificity (l : List (CSSRuleM × Nat)) :
    List (CSSRuleM × Nat) :=
  exchangeOuter (l.length + 1) 0 l

/-- `cssApplicator.applyMatchedRules` (`src/unnamed/part_005` lines 253-259):
every declaration of every match is written unconditionally, in match order;
the `Important` flag is not consulted. -/
def applyMatchedRules (style : List (String × String))
    (ms : List (CSSRuleM × Nat)) : List (String × String) :=
  ms.foldl
    (fun st m =>
      m.1.declarations.foldl (fun st2 pd => alSet st2 pd.1 pd.2.value.raw) st)
    style

/-- `cssApplicator.applyCSSRules`. -/
def applyCSSRules (loc : NodeLoc) (css : CSSM)
    (style : List (String × String)) : List (String × String) :=
  applyMatchedRules style (sortMatchesBySpecificity (collectMatchingRules loc css))

/-- `cssApplicator.parseInlineStyles`. -/
def parseInlineStyles (styleAttr : String) : List (String × String) :=
  (Matcher.splitOnChar ';' styleAttr.data).foldl
    (fun decls part =>
      let p := trimSpaceList part
      if p.isEmpty then decls
      else
        match p.findIdx? (fun c => c == ':') with
        | none => decls
        | some colonIndex =>
          let prop := trimSpace (String.mk (p.take colonIndex))
          let value := trimSpace (String.mk (p.drop (colonIndex + 1)))
          if prop ≠ "" ∧ value ≠ "" then alSet decls prop value else decls)
    []

/-- `cssApplicator.applyInlineStyles` (`src/unnamed/part_005` lines
271-288): the parsed `style=` attribute is written last, unconditionally. -/
def applyInlineStyles (loc : NodeLoc) (style : List (String × String)) :
    List (String × String) :=
  if !loc.node.isElement then style
  else
    match loc.node.getAttr "style" with
    | none => style
    | some styleAttr =>
      if styleAttr = "" then style
      else (parseInlineStyles styleAttr).foldl
        (fun st pv => alSet st pv.1 pv.2) style

/-- `cssApplicator.getParentFontSize`, given the parent's computed style
(`none` when the node has no parent). -/
def getParentFontSizeWith (parentStyle : Option (List (String × String))) : Dec :=
  match parentStyle with
  | none => ⟨16, 0⟩
  | some ps =>
    match alGet ps "font-size" with
    | none => ⟨16, 0⟩
    | some s =>
      if Matcher.hasSuffixStr s "px" then
        (parseFloatDec (trimSuffixStr s "px")).getD ⟨16, 0⟩
      else ⟨16, 0⟩

/-- `cssApplicator.resolveEmFontSize`. -/
def resolveEmFontSize (parentStyle : Option (List (String × String)))
    (style : List (String × String)) (fontSize : String) :
    List (String × String) :=
  match parseFloatDec (trimSuffixStr fontSize "em") with
  | none => style
  | some em =>
    let pixel := em.mul (getParentFontSizeWith parentStyle)
    alSet style "font-size" (formatDec2 pixel ++ "px")

/-- `cssApplicator.resolvePercentageFontSize`. -/
def resolvePercentageFontSize (parentStyle : Option (List (String × String)))
    (style : List (String × String)) (fontSize : String) :
    List (String × String) :=
  match parseFloatDec (trimSuffixStr fontSize "%") with
  | none => style
  | some percent =>
    let pixel := (percent.mul (getParentFontSizeWith parentStyle)).divPow10 2
    alSet style "font-size" (formatDec2 pixel ++ "px")

/-- `cssApplicator.resolveRelativeUnits`: resolve `em` margins and paddings
against the node's own resolved font size. -/
def resolveRelativeUnits (style : List (String × String)) :
    List (String × String) :=
  let fontSize : Dec :=
    match alGet style "font-size" with
    | some fs =>
      if Matcher.hasSuffixStr fs "px" then
        (parseFloatDec (trimSuffixStr fs "px")).getD ⟨16, 0⟩
      else ⟨16, 0⟩
    | none => ⟨16, 0⟩
  ["margin-top", "margin-bottom", "margin-left", "margin-right",
   "padding-top", "padding-bottom", "padding-left", "padding-right"].foldl
    (fun st prop =>
      match alGet st prop with
      | none => st
      | some value =>
        if Matcher.hasSuffixStr value "em" then
          match parseFloatDec (trimSuffixStr value "em") with
          | none => st
          | some em => alSet st prop (formatDec2 (em.mul fontSize) ++ "px")
        else st)
    style

/-- `cssApplicator.computeFinalValues`. -/
def computeFinalValuesWith (parentStyle : Option (List (String × String)))
    (style : List (String × String)) : List (String × String) :=
  let style1 :=
    match alGet style "font-size" with
    | some fs =>
      if Matcher.hasSuffixStr fs "em" then resolveEmFontSize parentStyle style fs
      else if Matcher.hasSuffixStr fs "%" then
        resolvePercentageFontSize parentStyle style fs
      else style
    | none => style
  resolveRelativeUnits style1

/-- `cssApplicator.applyInheritedStyles`, given the parent's computed
style. -/
def applyInheritedStylesWith (parentStyle : List (String × String))
    (style : List (String × String)) : List (String × String) :=
  inheritedPropsList.foldl
    (fun st prop =>
      match alGet parentStyle prop with
      | some v => alSet st prop v
      | none => st)
    style

/-- `cssApplicator.ComputeStyle` (`src/unnamed/part_005` lines 62-85):
defaults, inheritance from the parent's computed style, matched author
rules sorted ascending by specificity, the inline `style=` attribute, and
relative-unit resolution — in that order.  The fuel is the parent-chain
depth (the Go code recomputes the parent's style at its two call sites;
being pure, both return the value computed once here). -/
def computeStyleF : Nat → CSSM → NodeLoc → List (String × String)
  | 0, _, _ => []
  | fuel + 1, css, loc =>
    let parentStyle : Option (List (String × String)) :=
      match loc.parent with
      | some pl => some (computeStyleF fuel css pl)
      | none => none
    let style0 := setDefaultStyles loc
    let style1 :=
      match parentStyle with
      | some ps => applyInheritedStylesWith ps style0
      | none => style0
    let style2 := applyCSSRules loc css style1
    let style3 := applyInlineStyles loc style2
    computeFinalValuesWith parentStyle style3

/-- `ComputeStyle` with enough fuel for the node's ancestor chain. -/
def computeStyle (css : CSSM) (loc : NodeLoc) : List (String × String) :=
  computeStyleF (loc.ancestors.length + 1) css loc

end Cascade

/-- The `<p style="color:blue">` element of the claimed scenario, with no
parent. -/
def c2Node : PNode := .element "p" [("style", "color:blue")] []

/-- Its location (a root node). -/
def c2Loc : NodeLoc := ⟨c2Node, []⟩

/-- The stylesheet `p { color: red }`, with the `!important` flag of the
declaration as a parameter. -/
def c2CSS (imp : Bool) : Cascade.CSSM :=
  ⟨[⟨["p"], [("color", ⟨"color", kwValue "red", imp⟩)], [("p", 1)]⟩],
   [], [], ""⟩

/-- C2 counterexample: with the rule `p { color: red !important }` and the
element `<p style="color:blue">`, the computed color is "blue", not the
claimed "red" — the part_005 cascade never consults the `Important` flag and
`applyInlineStyles` runs last. -/
theorem important_rule_inline_counterexample :
    alGet (Cascade.computeStyle (c2CSS true) c2Loc) "color" = some "blue" := by
  rfl

/-- C2 amended: whatever the `!important` flag on the rule's declaration,
the computed color of `<p style="color:blue">` under `p { color: red }` is
"blue": matched rules are applied first and the inline `style=` attribute
overwrites them unconditionally, the `Important` flag being ignored by this
cascade. -/
theorem inline_style_always_wins (imp : Bool) :
    alGet (Cascade.computeStyle (c2CSS imp) c2Loc) "color" = some "blue" := by
  cases imp
  · rfl
  · rfl

/-! ## C9 — the tree builder and `documentBuilder.Build`
(`src/internal/browser/html.go` first version, `src/internal/browser/document.go`
lines 1-220, `src/unnamed/part_004` `ApplyCSS`)

The Go builder mutates nodes in place and keeps an open-element stack of
pointers; the model keeps a stack of frames (tag, attributes, children so
far), attaching a completed frame to its parent when it is popped, which
yields the same tree.  The entity decoder (`html.UnescapeString`, a standard
library collaborator) and the stylesheet parser (`cssParser.Parse`, whose
Go type `Parse() *CSS` has no error channel at all) are passed in as
functions. -/

/-- `browser.ScriptInfo`. -/
structure ScriptInfo where
  typ : String
  src : String
  content : String
  async : Bool
  deferFlag : Bool
deriving DecidableEq, Repr

namespace HtmlBuild

/-- An open element on the builder's stack: its tag, attributes and the
children collected so far. -/
structure Frame where
  ftag : String
  fattrs : List (String × String)
  fchildren : List PNode

/-- The parser state (`htmlParser`): the shared tokenizer, the open-element
stack (top first; the synthetic root is at the bottom) and the side
channels. -/
structure PState where
  tok : TokState
  stack : List Frame
  styleTags : String
  metadata : List (String × String)
  scripts : List ScriptInfo
  stylesheetURLs : List String

/-- Turn a popped frame into its element node. -/
def completeFrame (f : Frame) : PNode :=
  .element f.ftag f.fattrs f.fchildren

/-- `parent.AddChild(node)` at the current insertion point. -/
def attachToTop (stack : List Frame) (n : PNode) : List Frame :=
  match stack with
  | f :: rest => { f with fchildren := f.fchildren ++ [n] } :: rest
  | [] => []

/-- `htmlParser.handleEndTag`: pop through mismatched tags until the first
matching ancestor, never popping the root. -/
def popUntilF : Nat → String → List Frame → List Frame
  | 0, _, s => s
  | fuel + 1, tagName, top :: parent :: rest =>
    let parent1 := { parent with fchildren := parent.fchildren ++ [completeFrame top] }
    if top.ftag = tagName then parent1 :: rest
    else popUntilF fuel tagName (parent1 :: rest)
  | _ + 1, _, s => s

/-- `htmlParser.extractTagContent`: consume tokens from the shared tokenizer
up to the matching end tag (depth-counted), concatenating the text tokens;
the result is trimmed. -/
def extractTagContentF : Nat → String → Int → String → TokState →
    RunRes (String × TokState)
  | 0, _, _, _, _ => .hung
  | fuel + 1, tagName, depth, acc, st =>
    if st.hasMore && decide (0 < depth) then
      match Tok.nextToken st with
      | .crash => .crash
      | .hung => .hung
      | .ok (none, st1) => .ok (trimSpace acc, st1)
      | .ok (some tok, st1) =>
        let depth1 : Int :=
          match tok with
          | .startTag t _ => if t = tagName then depth + 1 else depth
          | .endTag t => if t = tagName then depth - 1 else depth
          | _ => depth
        let acc1 :=
          match tok with
          | .textTok s => if 0 < depth1 then acc ++ s else acc
          | _ => acc
        extractTagContentF fuel tagName depth1 acc1 st1
    else .ok (trimSpace acc, st)

def extractTagContent (tagName : String) (st : TokState) :
    RunRes (String × TokState) :=
  extractTagContentF (st.content.length + 1) tagName 1 "" st

/-- `htmlParser.processLinkTag`. -/
def processLinkTag (attrs : List (String × String)) (ps : PState) : PState :=
  match alGet attrs "rel", alGet attrs "href" with
  | some rel, some href =>
    if rel = "stylesheet" then
      { ps with stylesheetURLs := ps.stylesheetURLs ++ [href] }
    else ps
  | _, _ => ps

/-- `htmlParser.extractMetadata`. -/
def extractMetadata (attrs : List (String × String))
    (meta : List (String × String)) : List (String × String) :=
  let m1 := match alGet attrs "charset" with
    | some c => alSet meta "charset" c
    | none => meta
  let m2 := match alGet attrs "name", alGet attrs "content" with
    | some n, some c => alSet m1 n c
    | _, _ => m1
  let m3 := match alGet attrs "http-equiv", alGet attrs "content" with
    | some he, some c => alSet m2 ("http-equiv-" ++ he) c
    | _, _ => m2
  match alGet attrs "property", alGet attrs "content" with
  | some pr, some c => alSet m3 pr c
  | _, _ => m3

/-- `htmlParser.extractScriptFromToken`: an inline script (empty `src`)
additionally consumes its body from the tokenizer. -/
def extractScriptFromToken (attrs : List (String × String)) (ps : PState) :
    RunRes PState :=
  let typ := (alGet attrs "type").getD ""
  let src := (alGet attrs "src").getD ""
  let async := !(((alGet attrs "async").getD "") == "")
  let dfr := !(((alGet attrs "defer").getD "") == "")
  if src = "" then
    (extractTagContent "script" ps.tok).andThen fun r =>
      .ok { ps with
              tok := r.2
              scripts := ps.scripts ++ [⟨typ, src, r.1, async, dfr⟩] }
  else
    .ok { ps with scripts := ps.scripts ++ [⟨typ, src, "", async, dfr⟩] }

/-- `htmlParser.handleStartTag`: push the element and run the tag-specific
side channels (`style`, `link`, `script`, `title`, `meta`). -/
def handleStartTag (tagName : String) (attrs : List (String × String))
    (ps : PState) : RunRes PState :=
  let ps1 := { ps with stack := Frame.mk tagName attrs [] :: ps.stack }
  let r2 : RunRes PState :=
    if tagName = "style" then
      (extractTagContent "style" ps1.tok).andThen fun r =>
        .ok { ps1 with tok := r.2, styleTags := ps1.styleTags ++ r.1 ++ "\n" }
    else .ok ps1
  r2.andThen fun ps2 =>
    let ps3 := if tagName = "link" then processLinkTag attrs ps2 else ps2
    let r4 : RunRes PState :=
      if tagName = "script" then extractScriptFromToken attrs ps3 else .ok ps3
    r4.andThen fun ps4 =>
      let r5 : RunRes PState :=
        if tagName = "title" then
          (extractTagContent "title" ps4.tok).andThen fun r =>
            .ok { ps4 with tok := r.2, metadata := alSet ps4.metadata "title" r.1 }
        else .ok ps4
      r5.andThen fun ps5 =>
        if tagName = "meta" then
          .ok { ps5 with metadata := extractMetadata attrs ps5.metadata }
        else .ok ps5

/-- `htmlParser.handleSelfClosingTag`. -/
def handleSelfClosingTag (tagName : String) (attrs : List (String × String))
    (ps : PState) : PState :=
  let ps1 := { ps with stack := attachToTop ps.stack (.element tagName attrs []) }
  if tagName = "meta" then
    { ps1 with metadata := extractMetadata attrs ps1.metadata }
  else ps1

/-- `htmlParser.isInPre`. -/
def isInPre (stack : List Frame) : Bool :=
  stack.any (fun f => f.ftag == "pre")

/-- `preservePreformattedText`: tabs become four spaces. -/
def preservePreformattedText (s : String) : String :=
  String.mk ((s.data.map
    (fun c => if c = '\t' then [' ', ' ', ' ', ' '] else [c])).flatten)

/-- `htmlParser.handleTextToken` (the entity decoder is the `html` standard
library collaborator, passed in as `unescape`). -/
def handleTextToken (unescape : String → String) (s : String) (ps : PState) :
    PState :=
  if s = "" then ps
  else
    let decoded := unescape s
    let decoded1 := if isInPre ps.stack then preservePreformattedText decoded
      else decoded
    { ps with stack := attachToTop ps.stack (.textNode decoded1) }

/-- `htmlParser.processToken`. -/
def processToken (unescape : String → String) (tok : Token) (ps : PState) :
    RunRes PState :=
  match tok with
  | .startTag tagName attrs => handleStartTag tagName attrs ps
  | .selfClosingTag tagName attrs => .ok (handleSelfClosingTag tagName attrs ps)
  | .endTag tagName =>
    .ok { ps with stack := popUntilF (ps.stack.length + 1) tagName ps.stack }
  | .textTok s => .ok (handleTextToken unescape s ps)
  | .commentTok s => .ok { ps with stack := attachToTop ps.stack (.commentNode s) }
  | .doctype _ => .ok ps
  | .eofTok => .ok ps

/-- The main loop of `htmlParser.Parse` (lines 96-105): while the tokenizer
has input, take a token (skipping errored calls), stop at EOF, process. -/
def parseLoopF (unescape : String → String) : Nat → PState → RunRes PState
  | 0, _ => .hung
  | fuel + 1, ps =>
    if ps.tok.hasMore then
      match Tok.nextToken ps.tok with
      | .crash => .crash
      | .hung => .hung
      | .ok (none, st1) => parseLoopF unescape fuel { ps with tok := st1 }
      | .ok (some .eofTok, st1) => .ok { ps with tok := st1 }
      | .ok (some tok, st1) =>
        (processToken unescape tok { ps with tok := st1 }).andThen
          (parseLoopF unescape fuel)
    else .ok ps

/-- Fold the still-open elements into the root at end of input (they were
already attached in the Go version, which mutates in place). -/
def collapseStackF : Nat → List Frame → PNode
  | 0, _ => .element "html" [] []
  | _ + 1, [f] => completeFrame f
  | fuel + 1, top :: parent :: rest =>
    collapseStackF fuel
      ({ parent with fchildren := parent.fchildren ++ [completeFrame top] } :: rest)
  | _ + 1, [] => .element "html" [] []

/-- What `htmlParser.Parse` leaves behind: the root and the side channels. -/
structure ParseOut where
  root : PNode
  styleTags : String
  metadata : List (String × String)
  scripts : List ScriptInfo
  urls : List String

/-- `htmlParser.Parse`: synthesize `html`/`head`/`body` (insertion point at
`body`), run the token loop, and return the root.  The Go function's error
result is always `nil`, but the token loop can crash or hang inside the
tokenizer. -/
def htmlParse (unescape : String → String) (content : String) :
    RunRes ParseOut :=
  let initPS : PState :=
    { tok := ⟨content.data, 0⟩,
      stack := [⟨"body", [], []⟩, ⟨"html", [], [PNode.element "head" [] []]⟩],
      styleTags := "", metadata := [], scripts := [], stylesheetURLs := [] }
  (parseLoopF unescape (content.length + 1) initPS).andThen fun ps =>
    .ok { root := collapseStackF (ps.stack.length + 1) ps.stack,
          styleTags := ps.styleTags, metadata := ps.metadata,
          scripts := ps.scripts, urls := ps.stylesheetURLs }

end HtmlBuild

/-! ### `part_004` `ApplyCSS` (the style table the document is built with) -/

namespace ApplyCSS

/-- Lookup in the node-identity-keyed style table (nodes keyed by their
path of child indices from the root). -/
def plGet (m : List (List Nat × Style)) (k : List Nat) : Option Style :=
  (m.find? (fun p => p.1 == k)).map (fun p => p.2)

/-- Insert/overwrite in the style table. -/
def plSet (m : List (List Nat × Style)) (k : List Nat) (v : Style) :
    List (List Nat × Style) :=
  (k, v) :: m.filter (fun p => !(p.1 == k))

/-- `cssApplicator.getOrCreateStyle` (`src/unnamed/part_004`). -/
def getOrCreateStyle (styles : List (List Nat × Style)) (path : List Nat) :
    Style × List (List Nat × Style) :=
  match plGet styles path with
  | some s => (s, styles)
  | none => (newStyle, plSet styles path newStyle)

/-- `cssApplicator.applyRuleToTree` (`src/unnamed/part_004` lines 51-61):
despite its name it does not recurse — it applies the rule to the single
node it is given, once per matching selector. -/
def applyRuleToTree (loc : NodeLoc) (rule : Cascade.CSSRuleM)
    (styles : List (List Nat × Style)) (path : List Nat) :
    List (List Nat × Style) :=
  rule.selectors.foldl
    (fun st sel =>
      if Matcher.matchesSelector loc sel then
        let (style, st1) := getOrCreateStyle st path
        plSet st1 path (applyRuleToNode rule.declarations style)
      else st)
    styles

/-- `cssApplicator.applyInheritance` (`src/unnamed/part_004` lines 88-99):
copy each inherited parent property into the child when the parent value is
non-empty and the child value is empty. -/
def applyInheritance (parentStyle child : Style) : Style :=
  parentStyle.inherited.foldl
    (fun ch prop =>
      let pv := parentStyle.getProperty prop
      if pv.raw ≠ "" ∧ (ch.getProperty prop).raw = "" then
        ch.setProperty prop pv
      else ch)
    child

mutual

/-- `cssApplicator.applyInheritanceToTree`. -/
def applyInheritanceToTree (node : PNode) (path : List Nat)
    (styles : List (List Nat × Style)) (parentStyle : Option Style) :
    List (List Nat × Style) :=
  let (cur, styles1) := getOrCreateStyle styles path
  let cur1 := match parentStyle with
    | some ps => applyInheritance ps cur
    | none => cur
  let styles2 := plSet styles1 path cur1
  match node with
  | .element _ _ cs => applyInheritanceToChildren cs 0 path styles2 (some cur1)
  | _ => styles2
termination_by sizeOf node

/-- The child loop of `applyInheritanceToTree` (text and comment nodes have
no children, so matching on the element's child list is `GetChildren`). -/
def applyInheritanceToChildren (cs : List PNode) (i : Nat) (path : List Nat)
    (styles : List (List Nat × Style)) (parentStyle : Option Style) :
    List (List Nat × Style) :=
  match cs with
  | [] => styles
  | c :: rest =>
    applyInheritanceToChildren rest (i + 1) path
      (applyInheritanceToTree c (path ++ [i]) styles parentStyle) parentStyle
termination_by sizeOf cs

end

/-- `cssApplicator.ApplyCSS` (`src/unnamed/part_004` lines 29-49): apply
every rule (to the root node it is handed), skip media rules since the
applicator's viewport is nil in the build path, then run inheritance over
the tree. -/
def applyCSS (root : PNode) (css : Cascade.CSSM) : List (List Nat × Style) :=
  let styles1 := css.rules.foldl
    (fun st rule => applyRuleToTree ⟨root, []⟩ rule st []) []
  applyInheritanceToTree root [] styles1 none

end ApplyCSS

/-- The typed build errors (`errors.go`). -/
inductive BuildError where
  | invalidInput
  | parsingFailed
deriving DecidableEq, Repr

/-- `browser.document` (the `Document` produced by a build). -/
structure BDocument where
  root : PNode
  title : String
  charset : String
  language : String
  metadata : List (String × String)
  stylesheet : Cascade.CSSM
  scripts : List ScriptInfo
  styles : List (List Nat × Style)

/-- `documentBuilder.getDefaultCSS` (the built-in user-agent stylesheet,
prepended to the inline `<style>` text). -/
def defaultCSSText : String :=
  "\n/* Default browser styles */\nhtml, body \x7b\n\tmargin: 0;\n\tpadding: 0;\n\tfont-family: sans-serif;\n\tfont-size: 16px;\n\tline-height: 1.2;\n\tcolor: #000000;\n\tbackground-color: #ffffff;\n\x7d\n\nh1, h2, h3, h4, h5, h6 \x7b\n\tfont-weight: bold;\n\tmargin: 0.5em 0;\n\x7d\n\nh1 \x7b font-size: 2em; \x7d\nh2 \x7b font-size: 1.5em; \x7d\nh3 \x7b font-size: 1.17em; \x7d\nh4 \x7b font-size: 1em; \x7d\nh5 \x7b font-size: 0.83em; \x7d\nh6 \x7b font-size: 0.75em; \x7d\n\np \x7b\n\tmargin: 1em 0;\n\x7d\n\ndiv, section, article, aside, nav, main, header, footer \x7b\n\tdisplay: block;\n\x7d\n\na \x7b\n\tcolor: #0000EE;\n\ttext-decoration: underline;\n\x7d\n\nstrong, b \x7b\n\tfont-weight: bold;\n\x7d\n\nem, i \x7b\n\tfont-style: italic;\n\x7d\n\nul, ol \x7b\n\tmargin: 1em 0;\n\tpadding-left: 2em;\n\x7d\n\nli \x7b\n\tmargin: 0.5em 0;\n\x7d\n\ntable \x7b\n\tborder-collapse: collapse;\n\x7d\n\nth, td \x7b\n\tpadding: 4px;\n\tborder: 1px solid #ccc;\n\x7d\n\nimg \x7b\n\tmax-width: 100%;\n\theight: auto;\n\x7d\n"

/-- `documentBuilder.parseHTML`: wraps `htmlParser.Parse`, whose returned
error is always `nil` (so the `ErrParsingFailed` branch is unreachable) —
but whose token loop can crash or hang. -/
def parseHTMLStep (unescape : String → String) (content : String) :
    RunRes (Except BuildError HtmlBuild.ParseOut) :=
  (HtmlBuild.htmlParse unescape content).andThen fun pr => .ok (.ok pr)

/-- `documentBuilder.Build` (`src/internal/browser/document.go` lines
68-91): reject empty markup with the invalid-input error; otherwise parse
the markup (which can crash or hang in the tokenizer), parse the CSS
(`cssParser.Parse`, which has no error channel), apply the styles
(`ApplyCSS`, ditto) and return the document. -/
def build (cssParse : String → Cascade.CSSM) (unescape : String → String)
    (content : String) : RunRes (Except BuildError BDocument) :=
  if content = "" then .ok (.error .invalidInput)
  else
    (parseHTMLStep unescape content).andThen fun r =>
      match r with
      | .error e => .ok (.error e)
      | .ok pr =>
        let title := (alGet pr.metadata "title").getD ""
        let charset := (alGet pr.metadata "charset").getD ""
        let language := (alGet pr.metadata "lang").getD ""
        let fullCSS := defaultCSSText ++ "\n" ++ pr.styleTags
        let css := cssParse fullCSS
        let styles := ApplyCSS.applyCSS pr.root css
        .ok (.ok ⟨pr.root, title, charset, language, pr.metadata, css,
          pr.scripts, styles⟩)

/-- Discriminator for a build that returned a document. -/
def buildIsOk (r : RunRes (Except BuildError BDocument)) : Bool :=
  match r with
  | .ok (.ok _) => true
  | _ => false

/-- C9: the claim fails on non-empty inputs.  Empty markup is indeed
rejected up front with the typed invalid-input error, but not every
non-empty input yields a document: `Build "<"` crashes — the tokenizer's
`parseTag` reaches the empty-tag-name branch with `pos = len` and slices
`t.content[:t.pos+1]` out of range — and `Build "<a =b>"` never returns:
`extractAttributes` stops consuming at the bare `=` (`parseSingleAttribute`
returns an empty name without advancing), so the loop body repeats on an
unchanged state — for every fuel, on the exact loop state reached while
tokenizing `"<a =b>"`, the loop is still running. -/
theorem build_crash_and_hang (cssParse : String → Cascade.CSSM)
    (unescape : String → String) :
    build cssParse unescape "" = .ok (.error .invalidInput) ∧
    build cssParse unescape "<" = .crash ∧
    build cssParse unescape "<a =b>" = .hung ∧
    (∀ (fuel : Nat) (acc : List (String × String)),
      Tok.extractAttributesF fuel acc ⟨"<a =b>".data, 3⟩ = .hung) := by
  refine ⟨rfl, rfl, rfl, ?_⟩
  intro fuel acc
  induction fuel generalizing acc with
  | zero => rfl
  | succ n ih =>
    rw [show Tok.extractAttributesF (n + 1) acc ⟨"<a =b>".data, 3⟩ =
        Tok.extractAttributesF n acc ⟨"<a =b>".data, 3⟩ from rfl]
    exact ih acc

/-! ## C8 — inline text layout (`src/internal/ui/layout/nodes.go`,
`src/internal/ui/layout/types.go`)

The height of an inline box comes from `calculateTextDimensions`, a pure
character-count division; the greedy word wrap (`splitTextIntoLines`) is
used only when painting. -/

/-- Go `int(f)` for a `float64`: truncation toward zero (on the exact
rational model). -/
def truncQ (q : ℚ) : Int :=
  Int.tdiv q.num (q.den : Int)

namespace Layout

/-- `layout.TextMetrics`. -/
structure TextMetrics where
  characterWidth : ℚ
  lineHeight : ℚ
  fontSize : ℚ
deriving DecidableEq, Repr

/-- The metrics `calculateTextMetrics` derives from a font size:
`CharacterWidth = fontSize × CharWidthRatio` and
`LineHeight = fontSize × LineHeightRatio`. -/
def textMetricsOf (fontSize : ℚ) : TextMetrics :=
  ⟨fontSize * charWidthFactor, fontSize * lineHeightFactor, fontSize⟩

/-- `TextMetrics.calculateTextDimensions`
(`src/internal/ui/layout/types.go` lines 25-45): one line when the text
fits, otherwise a plain ceiling division of the rune count by the
characters-per-line capacity — no word boundaries are consulted. -/
def calculateTextDimensions (tm : TextMetrics) (text : String)
    (availableWidth : ℚ) : Int × ℚ :=
  if text = "" then (1, 0)
  else
    let characterCount : Int := text.data.length
    let textWidth := (characterCount : ℚ) * tm.characterWidth
    if textWidth ≤ availableWidth then (1, textWidth)
    else
      let cpl0 := truncQ (availableWidth / tm.characterWidth)
      let charactersPerLine := if cpl0 < 1 then 1 else cpl0
      ((characterCount + charactersPerLine - 1).tdiv charactersPerLine,
        (charactersPerLine : ℚ) * tm.characterWidth)

/-- `inlineLayout.isPreformattedText`: `white-space` is `pre`, `pre-wrap` or
`pre-line`. -/
def inlineIsPreformatted (style : Style) : Bool :=
  let ws := (style.getProperty "white-space").raw
  ws = "pre" || ws = "pre-wrap" || ws = "pre-line"

/-- `strings.Split(text, "\n")`. -/
def splitLinesOnNewline (text : String) : List String :=
  (Matcher.splitOnChar '\n' text.data).map String.mk

/-- `inlineLayout.Layout` (`src/internal/ui/layout/nodes.go` lines 279-296):
the used height of an inline text box at the given available width. -/
def inlineLayoutHeight (style : Style) (metrics : TextMetrics) (text : String)
    (width : ℚ) : ℚ :=
  if text = "" then 0
  else if inlineIsPreformatted style then
    ((splitLinesOnNewline text).length : ℚ) * metrics.lineHeight
  else
    (((calculateTextDimensions metrics text width).1 : ℚ)) * metrics.lineHeight

/-- `inlineLayout.calculateCharactersPerLine` (uses the box width at paint
time). -/
def calculateCharactersPerLine (width : ℚ) (metrics : TextMetrics) : Int :=
  let cpl := truncQ (width / metrics.characterWidth)
  if cpl < 1 then 1 else cpl

/-- `inlineLayout.addWordToLine`. -/
def addWordToLine (currentLine word : String) : String :=
  if currentLine = "" then word else currentLine ++ " " ++ word

/-- `inlineLayout.canAddWordToLine` (rune count against the capacity). -/
def canAddWordToLine (currentLine word : String) (charactersPerLine : Int) :
    Bool :=
  decide (((addWordToLine currentLine word).data.length : Int) ≤ charactersPerLine)

/-- `inlineLayout.wrapLineToWidth`: greedy word filling. -/
def wrapLineToWidth (line : String) (charactersPerLine : Int) : List String :=
  let words := Matcher.fields line
  if words.isEmpty then [""]
  else
    let folded := words.foldl
      (fun (acc : List String × String) word =>
        if canAddWordToLine acc.2 word charactersPerLine then
          (acc.1, addWordToLine acc.2 word)
        else
          ((if acc.2 ≠ "" then acc.1 ++ [acc.2] else acc.1), word))
      ([], "")
    if folded.2 ≠ "" then folded.1 ++ [folded.2] else folded.1

/-- `inlineLayout.splitTextIntoLines`: the lines actually painted — newline
split, then greedy wrap per line. -/
def splitTextIntoLines (text : String) (width : ℚ) (metrics : TextMetrics) :
    List String :=
  let charactersPerLine := calculateCharactersPerLine width metrics
  (splitLinesOnNewline text).foldl
    (fun wrapped line =>
      if line = "" then wrapped ++ [""]
      else wrapped ++ wrapLineToWidth line charactersPerLine)
    []

end Layout

theorem splitOnChar_go_length (c : Char) (l acc : List Char) :
    (Matcher.splitOnChar.go c l acc).length = l.countP (fun d => d == c) + 1 := by
  induction l generalizing acc with
  | nil => simp [Matcher.splitOnChar.go]
  | cons d rest ih =>
    by_cases h : d = c
    · simp [Matcher.splitOnChar.go, h, List.countP_cons, ih]
    · simp only [Matcher.splitOnChar.go, if_neg h]
      rw [ih, List.countP_cons]
      simp [h]

/-- Splitting on a character yields one part more than the number of its
occurrences. -/
theorem splitLinesOnNewline_length (text : String) :
    (Layout.splitLinesOnNewline text).length = countChar text '\n' + 1 := by
  unfold Layout.splitLinesOnNewline Matcher.splitOnChar countChar
  rw [List.length_map, splitOnChar_go_length]

/-- C8 (amended): the height of an inline text box is 0 for empty text; with
a `pre`-family `white-space` it is (newline count + 1) lines of
fontSize × 1.2 each (splitting only on literal newlines); otherwise it is a
pure character-count division — 1 line when runeCount × (fontSize × 0.6)
fits into the width, else ⌈runeCount / charsPerLine⌉ lines with
charsPerLine = max 1 (trunc(width / (fontSize × 0.6))) — NOT the number of
greedily wrapped words, which is consulted only when painting. -/
theorem inline_layout_height_formula (style : Style) (fontSize : ℚ)
    (text : String) (width : ℚ) :
    Layout.inlineLayoutHeight style (Layout.textMetricsOf fontSize) text width =
      (if text = "" then 0
       else if Layout.inlineIsPreformatted style then
         ((countChar text '\n' : ℚ) + 1) * (fontSize * lineHeightFactor)
       else
         let n : Int := text.data.length
         let cpl := max 1 (truncQ (width / (fontSize * charWidthFactor)))
         (if (n : ℚ) * (fontSize * charWidthFactor) ≤ width then 1
          else (((n + cpl - 1).tdiv cpl : Int) : ℚ)) *
           (fontSize * lineHeightFactor)) := by
  unfold Layout.inlineLayoutHeight
  by_cases hempty : text = ""
  · simp [hempty]
  · rw [if_neg hempty, if_neg hempty]
    by_cases hpre : Layout.inlineIsPreformatted style = true
    · rw [if_pos hpre, if_pos hpre, splitLinesOnNewline_length]
      simp only [Layout.textMetricsOf]
      push_cast
      ring
    · rw [if_neg hpre, if_neg hpre]
      unfold Layout.calculateTextDimensions
      rw [if_neg hempty]
      have hmax : ∀ m : Int, (if m < 1 then 1 else m) = max 1 m := by
        intro m
        by_cases hm : m < 1
        · rw [if_pos hm, max_eq_left (by omega)]
        · rw [if_neg hm, max_eq_right (by omega)]
      simp only [Layout.textMetricsOf]
      by_cases hfit :
          ((text.data.length : Int) : ℚ) * (fontSize * charWidthFactor) ≤ width
      · rw [if_pos hfit]
        simp only [hfit, if_pos]
        norm_num
      · rw [if_neg hfit]
        simp only [hfit, if_neg, if_false]
        rw [hmax]

/-- C8 counterexample: the text `"ab cd ef"` at width 24 with font size 10
(character width 6, line height 12, four characters per line).  The greedy
word wrap used at paint time produces three lines, but `Layout` computes the
height from ⌈8 / 4⌉ = 2 lines — the height is NOT (number of greedily
wrapped lines) × fontSize × 1.2. -/
theorem inline_height_vs_wrap_counterexample :
    Layout.inlineLayoutHeight newStyle (Layout.textMetricsOf 10) "ab cd ef" 24 =
      2 * (10 * lineHeightFactor) ∧
    (Layout.splitTextIntoLines "ab cd ef" 24 (Layout.textMetricsOf 10)).length = 3 ∧
    2 * ((10 : ℚ) * lineHeightFactor) ≠ 3 * ((10 : ℚ) * lineHeightFactor) := by
  have hpre : Layout.inlineIsPreformatted newStyle = false := by decide
  have hwidth : ((10 : ℚ) * charWidthFactor) = 6 := by
    norm_num [charWidthFactor]
  have htrunc : truncQ ((24 : ℚ) / 6) = 4 := by
    norm_num
    decide
  refine ⟨?_, ?_, ?_⟩
  · unfold Layout.inlineLayoutHeight
    rw [if_neg (by decide), if_neg (by rw [hpre]; exact Bool.false_ne_true)]
    unfold Layout.calculateTextDimensions
    rw [if_neg (by decide)]
    simp only [Layout.textMetricsOf]
    rw [show ((("ab cd ef".data.length : Int) : ℚ)) = 8 from by decide]
    rw [hwidth, htrunc]
    rw [if_neg (by norm_num : ¬((8 : ℚ) * 6 ≤ 24))]
    norm_num
    left
    rw [show Int.tdiv 11 4 = 2 from by decide]
    norm_num
  · have hcpl : Layout.calculateCharactersPerLine 24 (Layout.textMetricsOf 10) = 4 := by
      unfold Layout.calculateCharactersPerLine
      simp only [Layout.textMetricsOf]
      rw [hwidth, htrunc]
      decide
    unfold Layout.splitTextIntoLines
    rw [hcpl]
    decide
  · norm_num [lineHeightFactor]

/-! ## C7 — the layout engine and its shared cache
(`src/unnamed/part_018`, `src/internal/ui/layout/nodes.go`,
`src/internal/ui/layout/cache.go`)

The engine's only state surviving a pass is the `LayoutCache`, shared by
consecutive passes and keyed by raw value strings.  The injected parsers
(`browser.ColorParser.ParseColor`, `browser.UnitParser.ParseUnit`) are
deterministic functions, modelled as parameters; `ConvertToPixels` is
embedded.  Every `GetUnit`/`GetFontSize` call site in `nodes.go` passes
`browser.DefaultFontSize` as the base, so a cached entry always equals a
fixed pure function of its key — the coherence invariant below. -/

namespace Engine

/-- The injected parser collaborators, plus the node-identity assignment
for paint commands (pointer identity, keyed by tree path). -/
structure ParserDeps where
  parseColor : String → Option NRGBA
  parseUnit : String → Option (ℚ × String)
  idOf : List Nat → Nat

/-- `unitParser.ConvertToPixels` (`css_style.go` lines 217-243). -/
def convertToPixels (value : ℚ) (unit : String) (baseFontSize : ℚ) : ℚ :=
  if unit = "px" ∨ unit = "" then value
  else if unit = "em" then value * baseFontSize
  else if unit = "rem" then value * defaultFontSize
  else if unit = "%" then value / 100 * baseFontSize
  else if unit = "ex" then value * baseFontSize * (1 / 2)
  else if unit = "ch" then value * baseFontSize * (1 / 2)
  else if unit = "vw" then value * 8
  else if unit = "vh" then value * 8
  else if unit = "vmin" ∨ unit = "vmax" then value * 8
  else if unit = "pt" then value * (1333 / 1000)
  else if unit = "pc" then value * 16
  else if unit = "in" then value * 96
  else if unit = "cm" then value * (37795 / 1000)
  else if unit = "mm" then value * (37795 / 10000)
  else value

/-- `layout.LayoutCache`: three string-keyed caches (the mutex only guards
concurrent access and has no sequential semantics). -/
structure LayoutCache where
  colorCache : List (String × NRGBA)
  unitCache : List (String × ℚ)
  fontSizeCache : List (String × ℚ)

/-- `NewLayoutCache`. -/
def emptyLayoutCache : LayoutCache := ⟨[], [], []⟩

/-- The value `GetColor` computes (and caches) for a key. -/
def colorComputed (deps : ParserDeps) (s : String) : NRGBA :=
  match deps.parseColor s with
  | some c => c
  | none => ⟨0, 0, 0, 255⟩

/-- The value `GetUnit` computes (and caches) for a key at the base font
size every call site passes (`browser.DefaultFontSize`). -/
def unitComputed (deps : ParserDeps) (s : String) : ℚ :=
  match deps.parseUnit s with
  | some nu => convertToPixels nu.1 nu.2 defaultFontSize
  | none => 0

/-- The value `GetFontSize` computes (and caches) for a key at the default
base: parse, convert, clamp into `[MinFontSize, MaxFontSize]`. -/
def fontSizeComputed (deps : ParserDeps) (s : String) : ℚ :=
  let r : ℚ :=
    match deps.parseUnit s with
    | some nu => convertToPixels nu.1 nu.2 defaultFontSize
    | none => defaultFontSize
  let r1 := if r < 8 then 8 else r
  if 72 < r1 then 72 else r1

/-- `GetColor`'s result including its empty/transparent shortcut. -/
def colorValue (deps : ParserDeps) (s : String) : NRGBA :=
  if s = "" ∨ s = "transparent" then ⟨0, 0, 0, 0⟩ else colorComputed deps s

/-- `GetUnit`'s result including its empty/zero shortcut. -/
def unitValue (deps : ParserDeps) (s : String) : ℚ :=
  if s = "" ∨ s = "0" then 0 else unitComputed deps s

/-- `GetFontSize`'s result including its empty-string shortcut. -/
def fontSizeValue (deps : ParserDeps) (s : String) : ℚ :=
  if s = "" then defaultFontSize else fontSizeComputed deps s

/-- `LayoutCache.GetColor`. -/
def cacheGetColor (deps : ParserDeps) (lc : LayoutCache) (colorStr : String) :
    NRGBA × LayoutCache :=
  if colorStr = "" ∨ colorStr = "transparent" then (⟨0, 0, 0, 0⟩, lc)
  else
    match alGet lc.colorCache colorStr with
    | some cached => (cached, lc)
    | none =>
      let result := colorComputed deps colorStr
      (result, { lc with colorCache := alSet lc.colorCache colorStr result })

/-- `LayoutCache.GetUnit` (at the default base font size every caller
passes). -/
def cacheGetUnit (deps : ParserDeps) (lc : LayoutCache) (value : String) :
    ℚ × LayoutCache :=
  if value = "" ∨ value = "0" then (0, lc)
  else
    match alGet lc.unitCache value with
    | some cached => (cached, lc)
    | none =>
      let result := unitComputed deps value
      (result, { lc with unitCache := alSet lc.unitCache value result })

/-- `LayoutCache.GetFontSize` (at the default base font size every caller
passes). -/
def cacheGetFontSize (deps : ParserDeps) (lc : LayoutCache)
    (fontSizeStr : String) : ℚ × LayoutCache :=
  if fontSizeStr = "" then (defaultFontSize, lc)
  else
    match alGet lc.fontSizeCache fontSizeStr with
    | some cached => (cached, lc)
    | none =>
      let result := fontSizeComputed deps fontSizeStr
      (result,
        { lc with fontSizeCache := alSet lc.fontSizeCache fontSizeStr result })

/-- A cache is coherent when every stored entry equals the pure function of
its key — true of the empty cache and preserved by the getters. -/
def Coherent (deps : ParserDeps) (lc : LayoutCache) : Prop :=
  (∀ k v, alGet lc.colorCache k = some v → v = colorComputed deps k) ∧
  (∀ k v, alGet lc.unitCache k = some v → v = unitComputed deps k) ∧
  (∀ k v, alGet lc.fontSizeCache k = some v → v = fontSizeComputed deps k)

theorem coherent_empty (deps : ParserDeps) : Coherent deps emptyLayoutCache := by
  refine ⟨?_, ?_, ?_⟩ <;> intro k v h <;> simp [alGet, emptyLayoutCache] at h

theorem alGet_alSet_cases {α : Type} (m : List (String × α)) (k q : String)
    (v : α) :
    alGet (alSet m k v) q = if q = k then some v else alGet m q := by
  by_cases h : q = k
  · rw [if_pos h, h, alGet_alSet_self]
  · rw [if_neg h, alGet_alSet_ne _ _ _ _ h]

theorem cacheGetColor_fst {deps : ParserDeps} {lc : LayoutCache}
    (h : Coherent deps lc) (s : String) :
    (cacheGetColor deps lc s).1 = colorValue deps s := by
  unfold cacheGetColor colorValue
  by_cases hs : s = "" ∨ s = "transparent"
  · rw [if_pos hs, if_pos hs]
  · rw [if_neg hs, if_neg hs]
    cases hget : alGet lc.colorCache s with
    | none => simp [hget]
    | some cached => simp [hget, h.1 s cached hget]

theorem cacheGetColor_coherent {deps : ParserDeps} {lc : LayoutCache}
    (h : Coherent deps lc) (s : String) :
    Coherent deps (cacheGetColor deps lc s).2 := by
  unfold cacheGetColor
  by_cases hs : s = "" ∨ s = "transparent"
  · rw [if_pos hs]
    exact h
  · rw [if_neg hs]
    cases hget : alGet lc.colorCache s with
    | some cached => simp only [hget]; exact h
    | none =>
      simp only [hget]
      refine ⟨?_, h.2.1, h.2.2⟩
      intro k v hk
      rw [alGet_alSet_cases] at hk
      by_cases hks : k = s
      · rw [if_pos hks] at hk
        cases hk
        rw [hks]
      · rw [if_neg hks] at hk
        exact h.1 k v hk

theorem cacheGetUnit_fst {deps : ParserDeps} {lc : LayoutCache}
    (h : Coherent deps lc) (s : String) :
    (cacheGetUnit deps lc s).1 = unitValue deps s := by
  unfold cacheGetUnit unitValue
  by_cases hs : s = "" ∨ s = "0"
  · rw [if_pos hs, if_pos hs]
  · rw [if_neg hs, if_neg hs]
    cases hget : alGet lc.unitCache s with
    | none => simp [hget]
    | some cached => simp [hget, h.2.1 s cached hget]

theorem cacheGetUnit_coherent {deps : ParserDeps} {lc : LayoutCache}
    (h : Coherent deps lc) (s : String) :
    Coherent deps (cacheGetUnit deps lc s).2 := by
  unfold cacheGetUnit
  by_cases hs : s = "" ∨ s = "0"
  · rw [if_pos hs]
    exact h
  · rw [if_neg hs]
    cases hget : alGet lc.unitCache s with
    | some cached => simp only [hget]; exact h
    | none =>
      simp only [hget]
      refine ⟨h.1, ?_, h.2.2⟩
      intro k v hk
      rw [alGet_alSet_cases] at hk
      by_cases hks : k = s
      · rw [if_pos hks] at hk
        cases hk
        rw [hks]
      · rw [if_neg hks] at hk
        exact h.2.1 k v hk

theorem cacheGetFontSize_fst {deps : ParserDeps} {lc : LayoutCache}
    (h : Coherent deps lc) (s : String) :
    (cacheGetFontSize deps lc s).1 = fontSizeValue deps s := by
  unfold cacheGetFontSize fontSizeValue
  by_cases hs : s = ""
  · rw [if_pos hs, if_pos hs]
  · rw [if_neg hs, if_neg hs]
    cases hget : alGet lc.fontSizeCache s with
    | none => simp [hget]
    | some cached => simp [hget, h.2.2 s cached hget]

theorem cacheGetFontSize_coherent {deps : ParserDeps} {lc : LayoutCache}
    (h : Coherent deps lc) (s : String) :
    Coherent deps (cacheGetFontSize deps lc s).2 := by
  unfold cacheGetFontSize
  by_cases hs : s = ""
  · rw [if_pos hs]
    exact h
  · rw [if_neg hs]
    cases hget : alGet lc.fontSizeCache s with
    | some cached => simp only [hget]; exact h
    | none =>
      simp only [hget]
      refine ⟨h.1, h.2.1, ?_⟩
      intro k v hk
      rw [alGet_alSet_cases] at hk
      by_cases hks : k = s
      · rw [if_pos hks] at hk
        cases hk
        rw [hks]
      · rw [if_neg hks] at hk
        exact h.2.2 k v hk

/-- `layout.BoxEdges`. -/
structure BoxEdges where
  top : ℚ
  right : ℚ
  bottom : ℚ
  left : ℚ

/-- The layout tree (`LayoutNode` variants `documentLayout`, `blockLayout`,
`inlineLayout`, `preformattedLayout`, `preformattedInlineLayout`); each node
carries the data its constructor computed (box edges from
`calculateBoxModel`, metrics from `calculateTextMetrics`) plus the
originating node's identity and tag. -/
inductive LNode where
  | docN (nid : Nat) (children : List LNode)
  | blockN (nid : Nat) (style : Style) (margin padding : BoxEdges)
      (children : List LNode)
  | inlineN (nid : Nat) (style : Style) (text : String)
      (metrics : Layout.TextMetrics) (ntag : String)
  | preN (nid : Nat) (style : Style) (margin padding : BoxEdges)
      (children : List LNode)
  | preInlineN (nid : Nat) (style : Style) (text : String)
      (metrics : Layout.TextMetrics)

/-- `blockLayout.calculateBoxModel` (also `preformattedLayout`'s): resolve
the four margins then the four paddings through the unit cache at the
default base font size. -/
def calcBoxModel (deps : ParserDeps) (style : Style) (lc : LayoutCache) :
    (BoxEdges × BoxEdges) × LayoutCache :=
  let rt := cacheGetUnit deps lc (style.getProperty "margin-top").raw
  let rr := cacheGetUnit deps rt.2 (style.getProperty "margin-right").raw
  let rb := cacheGetUnit deps rr.2 (style.getProperty "margin-bottom").raw
  let rl := cacheGetUnit deps rb.2 (style.getProperty "margin-left").raw
  let pt := cacheGetUnit deps rl.2 (style.getProperty "padding-top").raw
  let pr := cacheGetUnit deps pt.2 (style.getProperty "padding-right").raw
  let pb := cacheGetUnit deps pr.2 (style.getProperty "padding-bottom").raw
  let pl := cacheGetUnit deps pb.2 (style.getProperty "padding-left").raw
  ((⟨rt.1, rr.1, rb.1, rl.1⟩, ⟨pt.1, pr.1, pb.1, pl.1⟩), pl.2)

/-- The pure value of `calculateBoxModel` (what it returns from any coherent
cache). -/
def calcBoxModelPure (deps : ParserDeps) (style : Style) :
    BoxEdges × BoxEdges :=
  (⟨unitValue deps (style.getProperty "margin-top").raw,
    unitValue deps (style.getProperty "margin-right").raw,
    unitValue deps (style.getProperty "margin-bottom").raw,
    unitValue deps (style.getProperty "margin-left").raw⟩,
   ⟨unitValue deps (style.getProperty "padding-top").raw,
    unitValue deps (style.getProperty "padding-right").raw,
    unitValue deps (style.getProperty "padding-bottom").raw,
    unitValue deps (style.getProperty "padding-left").raw⟩)

theorem calcBoxModel_fst {deps : ParserDeps} {lc : LayoutCache}
    (h : Coherent deps lc) (style : Style) :
    (calcBoxModel deps style lc).1 = calcBoxModelPure deps style := by
  unfold calcBoxModel calcBoxModelPure
  have h1 := cacheGetUnit_coherent h (style.getProperty "margin-top").raw
  have h2 := cacheGetUnit_coherent h1 (style.getProperty "margin-right").raw
  have h3 := cacheGetUnit_coherent h2 (style.getProperty "margin-bottom").raw
  have h4 := cacheGetUnit_coherent h3 (style.getProperty "margin-left").raw
  have h5 := cacheGetUnit_coherent h4 (style.getProperty "padding-top").raw
  have h6 := cacheGetUnit_coherent h5 (style.getProperty "padding-right").raw
  have h7 := cacheGetUnit_coherent h6 (style.getProperty "padding-bottom").raw
  simp only [cacheGetUnit_fst h, cacheGetUnit_fst h1, cacheGetUnit_fst h2,
    cacheGetUnit_fst h3, cacheGetUnit_fst h4, cacheGetUnit_fst h5,
    cacheGetUnit_fst h6, cacheGetUnit_fst h7]

theorem calcBoxModel_coherent {deps : ParserDeps} {lc : LayoutCache}
    (h : Coherent deps lc) (style : Style) :
    Coherent deps (calcBoxModel deps style lc).2 := by
  unfold calcBoxModel
  exact cacheGetUnit_coherent
    (cacheGetUnit_coherent (cacheGetUnit_coherent (cacheGetUnit_coherent
      (cacheGetUnit_coherent (cacheGetUnit_coherent (cacheGetUnit_coherent
        (cacheGetUnit_coherent h _) _) _) _) _) _) _) _

/-- `inlineLayout.calculateTextMetrics` (also the preformatted variant):
the clamped font size through the cache, expanded by the character-width
and line-height ratios. -/
def calcTextMetrics (deps : ParserDeps) (style : Style) (lc : LayoutCache) :
    Layout.TextMetrics × LayoutCache :=
  let r := cacheGetFontSize deps lc (style.getProperty "font-size").raw
  (Layout.textMetricsOf r.1, r.2)

/-- The pure value of `calculateTextMetrics`. -/
def calcTextMetricsPure (deps : ParserDeps) (style : Style) :
    Layout.TextMetrics :=
  Layout.textMetricsOf (fontSizeValue deps (style.getProperty "font-size").raw)

theorem calcTextMetrics_fst {deps : ParserDeps} {lc : LayoutCache}
    (h : Coherent deps lc) (style : Style) :
    (calcTextMetrics deps style lc).1 = calcTextMetricsPure deps style := by
  unfold calcTextMetrics calcTextMetricsPure
  simp only []
  rw [cacheGetFontSize_fst h]

theorem calcTextMetrics_coherent {deps : ParserDeps} {lc : LayoutCache}
    (h : Coherent deps lc) (style : Style) :
    Coherent deps (calcTextMetrics deps style lc).2 :=
  cacheGetFontSize_coherent h _

/-- `layoutEngine.normalizeWhitespace` (`src/unnamed/part_018` lines
228-271): collapse runs of white space (optionally preserving newlines),
then trim unless newlines are preserved. -/
def normalizeWhitespace (text : String) (preserveNewlines : Bool) : String :=
  if text = "" then ""
  else
    let step := fun (acc : List Char × Bool × Bool) (r : Char) =>
      if r = '\n' ∨ r = '\r' then
        if preserveNewlines then
          if !acc.2.2 then ('\n' :: acc.1, false, true) else acc
        else
          if !acc.2.1 then (' ' :: acc.1, true, false) else acc
      else if r = ' ' ∨ r = '\t' then
        if !acc.2.1 && !acc.2.2 then (' ' :: acc.1, true, false) else acc
      else (r :: acc.1, false, false)
    let result := (text.data.foldl step ([], false, false)).1.reverse
    if !preserveNewlines then trimSpace (String.mk result)
    else String.mk result

/-- `layoutEngine.processWhitespace`. -/
def processWhitespace (text whiteSpace : String) : String :=
  if whiteSpace = "pre" ∨ whiteSpace = "pre-wrap" then text
  else if whiteSpace = "pre-line" then normalizeWhitespace text true
  else normalizeWhitespace text false

/-- `layoutEngine.isPreformattedWhitespace`. -/
def isPreformattedWhitespaceWS (ws : String) : Bool :=
  ws = "pre" || ws = "pre-wrap"

/-- `layoutEngine.isInsidePreTag`: some ancestor is a `pre` element. -/
def isInsidePreTag (anc : List (PNode × Nat)) : Bool :=
  anc.any (fun pi => pi.1.isElement && pi.1.tag == "pre")

/-- `layoutEngine.isInHead`: some ancestor's tag is `head`. -/
def isInHead (anc : List (PNode × Nat)) : Bool :=
  anc.any (fun pi => pi.1.tag == "head")

/-- `layoutEngine.hasElementBefore`/`hasElementAfter` combined:
a whitespace run is significant when an element sibling exists on both
sides (`isSignificantWhitespace`). -/
def isSignificantWhitespace (siblings : List PNode) (idx : Nat) : Bool :=
  (siblings.take idx).any PNode.isElement &&
  (siblings.drop (idx + 1)).any PNode.isElement

/-- The document the layout engine consumes: the root node and the
computed-style table (`GetComputedStyle`, keyed by node identity — here by
tree path — and total since absent nodes get `NewStyle()`). -/
structure LDocument where
  root : PNode
  styleOf : List Nat → Style

/-- `layoutEngine.getWhiteSpaceValue`: the parent's computed `white-space`,
defaulting to `normal`. -/
def getWhiteSpaceValue (doc : LDocument) (anc : List (PNode × Nat))
    (path : List Nat) : String :=
  match anc with
  | (p, _) :: _ =>
    if p.isElement then
      let ws := ((doc.styleOf path.dropLast).getProperty "white-space").raw
      if ws ≠ "" then ws else "normal"
    else "normal"
  | [] => "normal"

/-- The text `createTextLayout` ends up laying out, if any: empty text is
dropped; the parent's `white-space` drives normalization; a run normalized
to nothing survives as a single space only between element siblings
(outside `pre`/`pre-wrap`). -/
def textProcessedFinal (doc : LDocument) (s : String)
    (anc : List (PNode × Nat)) (path : List Nat) : Option String :=
  if s = "" then none
  else
    let ws := getWhiteSpaceValue doc anc path
    let processed := processWhitespace s ws
    if processed = "" ∧ ¬(isPreformattedWhitespaceWS ws = true) then
      match anc with
      | (p, i) :: _ =>
        if isSignificantWhitespace p.children i then some " " else none
      | [] => none
    else some processed

mutual

/-- `layoutEngine.buildLayoutTree` with `createTextLayout` and
`createElementLayout` (`src/unnamed/part_018` lines 47-193), threading the
layout cache used by the node constructors.  `anc` is the parent chain
(with child indices, modelling the Go parent pointers), `path` the node's
path from the root (its identity). -/
def buildLayoutTree (deps : ParserDeps) (doc : LDocument) :
    PNode → List (PNode × Nat) → List Nat → LayoutCache →
    Option LNode × LayoutCache
  | .commentNode _, _, _, lc => (none, lc)
  | .textNode s, anc, path, lc =>
    match textProcessedFinal doc s anc path with
    | none => (none, lc)
    | some txt =>
      let style := doc.styleOf path
      let r := calcTextMetrics deps style lc
      if isInsidePreTag anc then
        (some (.preInlineN (deps.idOf path) style txt r.1), r.2)
      else
        (some (.inlineN (deps.idOf path) style txt r.1 ""), r.2)
  | .element etag eattrs cs, anc, path, lc =>
    if isInHead anc then (none, lc)
    else
      let style := doc.styleOf path
      if (style.getProperty "display").raw = "none" then (none, lc)
      else
        let tagL := String.mk (etag.data.map Char.toLower)
        if tagL = "br" then
          let r := calcTextMetrics deps style lc
          (some (.inlineN (deps.idOf path) style "\n" r.1 etag), r.2)
        else if tagL = "html" then
          let r := buildChildren deps doc cs 0 (.element etag eattrs cs) anc path lc
          (some (.docN (deps.idOf path) r.1), r.2)
        else if tagL = "pre" then
          let rb := calcBoxModel deps style lc
          let r := buildChildren deps doc cs 0 (.element etag eattrs cs) anc path rb.2
          (some (.preN (deps.idOf path) style rb.1.1 rb.1.2 r.1), r.2)
        else
          let rb := calcBoxModel deps style lc
          let r := buildChildren deps doc cs 0 (.element etag eattrs cs) anc path rb.2
          (some (.blockN (deps.idOf path) style rb.1.1 rb.1.2 r.1), r.2)

/-- `layoutEngine.addChildrenToLayoutNode`: build each child (skipping the
nil ones) in order. -/
def buildChildren (deps : ParserDeps) (doc : LDocument) :
    List PNode → Nat → PNode → List (PNode × Nat) → List Nat → LayoutCache →
    List LNode × LayoutCache
  | [], _, _, _, _, lc => ([], lc)
  | c :: rest, i, parentNode, anc, path, lc =>
    let hd := buildLayoutTree deps doc c ((parentNode, i) :: anc) (path ++ [i]) lc
    let tl := buildChildren deps doc rest (i + 1) parentNode anc path hd.2
    ((match hd.1 with
      | some l => l :: tl.1
      | none => tl.1), tl.2)

end

mutual

/-- The cache-free value of `buildLayoutTree` (its result from any coherent
cache). -/
def buildLayoutTreePure (deps : ParserDeps) (doc : LDocument) :
    PNode → List (PNode × Nat) → List Nat → Option LNode
  | .commentNode _, _, _ => none
  | .textNode s, anc, path =>
    match textProcessedFinal doc s anc path with
    | none => none
    | some txt =>
      let style := doc.styleOf path
      let metrics := calcTextMetricsPure deps style
      if isInsidePreTag anc then
        some (.preInlineN (deps.idOf path) style txt metrics)
      else
        some (.inlineN (deps.idOf path) style txt metrics "")
  | .element etag eattrs cs, anc, path =>
    if isInHead anc then none
    else
      let style := doc.styleOf path
      if (style.getProperty "display").raw = "none" then none
      else
        let tagL := String.mk (etag.data.map Char.toLower)
        if tagL = "br" then
          some (.inlineN (deps.idOf path) style "\n"
            (calcTextMetricsPure deps style) etag)
        else if tagL = "html" then
          some (.docN (deps.idOf path)
            (buildChildrenPure deps doc cs 0 (.element etag eattrs cs) anc path))
        else if tagL = "pre" then
          let mp := calcBoxModelPure deps style
          some (.preN (deps.idOf path) style mp.1 mp.2
            (buildChildrenPure deps doc cs 0 (.element etag eattrs cs) anc path))
        else
          let mp := calcBoxModelPure deps style
          some (.blockN (deps.idOf path) style mp.1 mp.2
            (buildChildrenPure deps doc cs 0 (.element etag eattrs cs) anc path))

/-- The cache-free value of `buildChildren`. -/
def buildChildrenPure (deps : ParserDeps) (doc : LDocument) :
    List PNode → Nat → PNode → List (PNode × Nat) → List Nat → List LNode
  | [], _, _, _, _ => []
  | c :: rest, i, parentNode, anc, path =>
    let hd := buildLayoutTreePure deps doc c ((parentNode, i) :: anc) (path ++ [i])
    let tl := buildChildrenPure deps doc rest (i + 1) parentNode anc path
    match hd with
    | some l => l :: tl
    | none => tl

end

mutual

/-- From a coherent cache, `buildLayoutTree` returns the cache-free tree
and leaves the cache coherent — so the built tree does not depend on which
coherent cache the pass starts from. -/
theorem buildLayoutTree_pure (deps : ParserDeps) (doc : LDocument)
    (node : PNode) (anc : List (PNode × Nat)) (path : List Nat)
    (lc : LayoutCache) (h : Coherent deps lc) :
    (buildLayoutTree deps doc node anc path lc).1 =
      buildLayoutTreePure deps doc node anc path ∧
    Coherent deps (buildLayoutTree deps doc node anc path lc).2 := by
  cases node with
  | commentNode s => exact ⟨rfl, h⟩
  | textNode s =>
    cases hopt : textProcessedFinal doc s anc path with
    | none =>
      constructor
      · simp [buildLayoutTree, buildLayoutTreePure, hopt]
      · simp only [buildLayoutTree, hopt]
        exact h
    | some txt =>
      by_cases hpre : isInsidePreTag anc = true
      · constructor
        · simp [buildLayoutTree, buildLayoutTreePure, hopt, hpre,
            calcTextMetrics_fst h]
        · simp only [buildLayoutTree, hopt, hpre, if_true]
          exact calcTextMetrics_coherent h _
      · rw [Bool.not_eq_true] at hpre
        constructor
        · simp [buildLayoutTree, buildLayoutTreePure, hopt, hpre,
            calcTextMetrics_fst h]
        · simp only [buildLayoutTree, hopt, hpre, Bool.false_eq_true, if_false]
          exact calcTextMetrics_coherent h _
  | element etag eattrs cs =>
    by_cases hhead : isInHead anc = true
    · constructor
      · simp [buildLayoutTree, buildLayoutTreePure, hhead]
      · simp only [buildLayoutTree, hhead, if_true]
        exact h
    · rw [Bool.not_eq_true] at hhead
      by_cases hdisp :
          ((doc.styleOf path).getProperty "display").raw = "none"
      · constructor
        · simp [buildLayoutTree, buildLayoutTreePure, hhead, hdisp]
        · simp only [buildLayoutTree, hhead, Bool.false_eq_true, if_false,
            hdisp, if_pos]
          exact h
      · by_cases hbr : String.mk (etag.data.map Char.toLower) = "br"
        · constructor
          · simp [buildLayoutTree, buildLayoutTreePure, hhead, hdisp, hbr,
              calcTextMetrics_fst h]
          · simp only [buildLayoutTree, hhead, Bool.false_eq_true, if_false,
              hdisp, if_neg, hbr, if_pos]
            exact calcTextMetrics_coherent h _
        · by_cases hhtml : String.mk (etag.data.map Char.toLower) = "html"
          · have hch := buildChildren_pure deps doc cs 0
              (.element etag eattrs cs) anc path lc h
            constructor
            · simp [buildLayoutTree, buildLayoutTreePure, hhead, hdisp, hbr,
                hhtml, hch.1]
            · simp only [buildLayoutTree, hhead, Bool.false_eq_true, if_false,
                hdisp, if_neg, hbr, hhtml, if_pos]
              exact hch.2
          · by_cases hpre : String.mk (etag.data.map Char.toLower) = "pre"
            · have hco := calcBoxModel_coherent h (doc.styleOf path)
              have hch := buildChildren_pure deps doc cs 0
                (.element etag eattrs cs) anc path
                (calcBoxModel deps (doc.styleOf path) lc).2 hco
              constructor
              · simp [buildLayoutTree, buildLayoutTreePure, hhead, hdisp, hbr,
                  hhtml, hpre, hch.1, calcBoxModel_fst h]
              · simp only [buildLayoutTree, hhead, Bool.false_eq_true,
                  if_false, hdisp, if_neg, hbr, hhtml, hpre, if_pos]
                exact hch.2
            · have hco := calcBoxModel_coherent h (doc.styleOf path)
              have hch := buildChildren_pure deps doc cs 0
                (.element etag eattrs cs) anc path
                (calcBoxModel deps (doc.styleOf path) lc).2 hco
              constructor
              · simp [buildLayoutTree, buildLayoutTreePure, hhead, hdisp, hbr,
                  hhtml, hpre, hch.1, calcBoxModel_fst h]
              · simp only [buildLayoutTree, hhead, Bool.false_eq_true,
                  if_false, hdisp, if_neg, hbr, hhtml, hpre]
                exact hch.2
termination_by sizeOf node

/-- The child loop preserves the correspondence. -/
theorem buildChildren_pure (deps : ParserDeps) (doc : LDocument)
    (cs : List PNode) (i : Nat) (parentNode : PNode)
    (anc : List (PNode × Nat)) (path : List Nat) (lc : LayoutCache)
    (h : Coherent deps lc) :
    (buildChildren deps doc cs i parentNode anc path lc).1 =
      buildChildrenPure deps doc cs i parentNode anc path ∧
    Coherent deps (buildChildren deps doc cs i parentNode anc path lc).2 := by
  cases cs with
  | nil => exact ⟨rfl, h⟩
  | cons c rest =>
    have hhd := buildLayoutTree_pure deps doc c ((parentNode, i) :: anc)
      (path ++ [i]) lc h
    have htl := buildChildren_pure deps doc rest (i + 1) parentNode anc path
      (buildLayoutTree deps doc c ((parentNode, i) :: anc) (path ++ [i]) lc).2
      hhd.2
    constructor
    · simp only [buildChildren, buildChildrenPure]
      rw [htl.1, hhd.1]
    · simp only [buildChildren]
      exact htl.2
termination_by sizeOf cs

end

/-- The positioned layout tree: each box with its resolved bounds, as left
by the mutating `SetPosition`/`Layout` pass. -/
inductive PosNode where
  | docP (nid : Nat) (bounds : Bounds) (children : List PosNode)
  | blockP (nid : Nat) (style : Style) (margin padding : BoxEdges)
      (bounds : Bounds) (children : List PosNode)
  | inlineP (nid : Nat) (style : Style) (text : String)
      (metrics : Layout.TextMetrics) (ntag : String) (bounds : Bounds)
  | preP (nid : Nat) (style : Style) (margin padding : BoxEdges)
      (bounds : Bounds) (children : List PosNode)
  | preInlineP (nid : Nat) (style : Style) (text : String)
      (metrics : Layout.TextMetrics) (bounds : Bounds)

mutual

/-- The `SetPosition(x, y)` + `Layout(width) → usedHeight` pass
(`documentLayout.Layout`, `blockLayout.Layout`, `inlineLayout.Layout`,
`preformattedLayout.Layout`, `preformattedInlineLayout.Layout`), a pure
computation of the positioned tree and the used height. -/
def layoutNode : LNode → ℚ → ℚ → ℚ → PosNode × ℚ
  | .docN nid children, x, y, w =>
    let r := layoutChildren children 0 0 w
    (.docP nid ⟨x, y, w, r.2⟩ r.1, r.2)
  | .blockN nid style margin padding children, x, y, w =>
    let bw := w - margin.left - margin.right
    let contentX := x + margin.left + padding.left
    let contentY := y + margin.top + padding.top
    let contentWidth := bw - padding.left - padding.right
    let r := layoutChildren children contentX contentY contentWidth
    let height := (r.2 - y) + padding.bottom + margin.bottom
    (.blockP nid style margin padding ⟨x, y, bw, height⟩ r.1, height)
  | .preN nid style margin padding children, x, y, w =>
    let bw := w - margin.left - margin.right
    let contentX := x + margin.left + padding.left
    let contentY := y + margin.top + padding.top
    let contentWidth := bw - padding.left - padding.right
    let r := layoutChildren children contentX contentY contentWidth
    let height := (r.2 - y) + padding.bottom + margin.bottom - (contentY - y)
    (.preP nid style margin padding ⟨x, y, bw, height⟩ r.1, height)
  | .inlineN nid style text metrics ntag, x, y, w =>
    let h := Layout.inlineLayoutHeight style metrics text w
    (.inlineP nid style text metrics ntag ⟨x, y, w, h⟩, h)
  | .preInlineN nid style text metrics, x, y, w =>
    let h : ℚ :=
      if text = "" then 0
      else ((Layout.splitLinesOnNewline text).length : ℚ) * metrics.lineHeight
    (.preInlineP nid style text metrics ⟨x, y, w, h⟩, h)

/-- The shared child-stacking loop (`SetPosition(x, currY)` then layout,
accumulating the running Y). -/
def layoutChildren : List LNode → ℚ → ℚ → ℚ → List PosNode × ℚ
  | [], _, currY, _ => ([], currY)
  | c :: rest, x, currY, w =>
    let rc := layoutNode c x currY w
    let rr := layoutChildren rest x (currY + rc.2) w
    (rc.1 :: rr.1, rr.2)

end

/-- One line-by-line text paint loop (`paintPreformattedText`,
`paintWrappedText`, `preformattedInlineLayout.Paint` share it): draw each
non-empty line, advancing by the line height. -/
def paintLines (lines : List String) (x startY : ℚ)
    (metrics : Layout.TextMetrics) (color : NRGBA) (nid : Nat)
    (dl : DisplayList) : DisplayList :=
  (lines.foldl
    (fun (acc : DisplayList × ℚ) line =>
      ((if line ≠ "" then
          acc.1.addCommand (.text x acc.2 line metrics.fontSize color nid)
        else acc.1), acc.2 + metrics.lineHeight))
    (dl, startY)).1

/-- `blockLayout.paintBackground` (and `preformattedLayout`'s): an opaque
non-transparent background paints a rect inside the margins. -/
def paintBackgroundStep (deps : ParserDeps) (style : Style)
    (margin : BoxEdges) (bounds : Bounds) (nid : Nat) (dl : DisplayList)
    (lc : LayoutCache) : DisplayList × LayoutCache :=
  let bg := (style.getProperty "background-color").raw
  if bg = "transparent" ∨ bg = "" then (dl, lc)
  else
    let rc := cacheGetColor deps lc bg
    if 0 < rc.1.a then
      (dl.addCommand (.rect
        ⟨bounds.x + margin.left, bounds.y + margin.top, bounds.width,
          bounds.height - margin.top - margin.bottom⟩ rc.1 nid), rc.2)
    else (dl, rc.2)

/-- The pure value of `paintBackgroundStep`. -/
def paintBackgroundPure (deps : ParserDeps) (style : Style)
    (margin : BoxEdges) (bounds : Bounds) (nid : Nat) (dl : DisplayList) :
    DisplayList :=
  let bg := (style.getProperty "background-color").raw
  if bg = "transparent" ∨ bg = "" then dl
  else
    let c := colorValue deps bg
    if 0 < c.a then
      dl.addCommand (.rect
        ⟨bounds.x + margin.left, bounds.y + margin.top, bounds.width,
          bounds.height - margin.top - margin.bottom⟩ c nid)
    else dl

theorem paintBackgroundStep_fst {deps : ParserDeps} {lc : LayoutCache}
    (h : Coherent deps lc) (style : Style) (margin : BoxEdges)
    (bounds : Bounds) (nid : Nat) (dl : DisplayList) :
    (paintBackgroundStep deps style margin bounds nid dl lc).1 =
      paintBackgroundPure deps style margin bounds nid dl := by
  unfold paintBackgroundStep paintBackgroundPure
  by_cases hbg : (style.getProperty "background-color").raw = "transparent" ∨
      (style.getProperty "background-color").raw = ""
  · rw [if_pos hbg, if_pos hbg]
  · rw [if_neg hbg, if_neg hbg]
    simp only [cacheGetColor_fst h]
    split <;> rfl

theorem paintBackgroundStep_coherent {deps : ParserDeps} {lc : LayoutCache}
    (h : Coherent deps lc) (style : Style) (margin : BoxEdges)
    (bounds : Bounds) (nid : Nat) (dl : DisplayList) :
    Coherent deps (paintBackgroundStep deps style margin bounds nid dl lc).2 := by
  unfold paintBackgroundStep
  by_cases hbg : (style.getProperty "background-color").raw = "transparent" ∨
      (style.getProperty "background-color").raw = ""
  · rw [if_pos hbg]
    exact h
  · rw [if_neg hbg]
    by_cases ha : 0 < (cacheGetColor deps lc
        (style.getProperty "background-color").raw).1.a
    · simp only [ha, if_pos]
      exact cacheGetColor_coherent h _
    · simp only [ha, if_neg, if_false]
      exact cacheGetColor_coherent h _

mutual

/-- The `Paint` pass (`documentLayout.Paint`, `blockLayout.Paint`,
`inlineLayout.Paint`, `preformattedLayout.Paint`,
`preformattedInlineLayout.Paint`), threading the color cache.  The link
highlight color applies when the originating node's tag is `a` (the
`hovered` flag starts false). -/
def paintNode (deps : ParserDeps) :
    PosNode → DisplayList → LayoutCache → DisplayList × LayoutCache
  | .docP _ _ children, dl, lc => paintChildren deps children dl lc
  | .blockP nid style margin _ bounds children, dl, lc =>
    let r := paintBackgroundStep deps style margin bounds nid dl lc
    paintChildren deps children r.1 r.2
  | .preP nid style margin _ bounds children, dl, lc =>
    let r := paintBackgroundStep deps style margin bounds nid dl lc
    paintChildren deps children r.1 r.2
  | .inlineP nid style text metrics ntag bounds, dl, lc =>
    if text = "" then (dl, lc)
    else
      let rc := cacheGetColor deps lc (style.getProperty "color").raw
      let textColor := if ntag == "a" then ⟨0, 0, 238, 255⟩ else rc.1
      if Layout.inlineIsPreformatted style then
        (paintLines (Layout.splitLinesOnNewline text) bounds.x bounds.y
          metrics textColor nid dl, rc.2)
      else
        (paintLines (Layout.splitTextIntoLines text bounds.width metrics)
          bounds.x bounds.y metrics textColor nid dl, rc.2)
  | .preInlineP nid style text metrics bounds, dl, lc =>
    if text = "" then (dl, lc)
    else
      let rc := cacheGetColor deps lc (style.getProperty "color").raw
      let textColor : NRGBA := if rc.1.a = 0 then ⟨0, 0, 0, 255⟩ else rc.1
      (paintLines (Layout.splitLinesOnNewline text) bounds.x bounds.y
        metrics textColor nid dl, rc.2)

/-- The child paint loop. -/
def paintChildren (deps : ParserDeps) :
    List PosNode → DisplayList → LayoutCache → DisplayList × LayoutCache
  | [], dl, lc => (dl, lc)
  | c :: rest, dl, lc =>
    let r := paintNode deps c dl lc
    paintChildren deps rest r.1 r.2

end

mutual

/-- The cache-free value of `paintNode`. -/
def paintNodePure (deps : ParserDeps) : PosNode → DisplayList → DisplayList
  | .docP _ _ children, dl => paintChildrenPure deps children dl
  | .blockP nid style margin _ bounds children, dl =>
    paintChildrenPure deps children
      (paintBackgroundPure deps style margin bounds nid dl)
  | .preP nid style margin _ bounds children, dl =>
    paintChildrenPure deps children
      (paintBackgroundPure deps style margin bounds nid dl)
  | .inlineP nid style text metrics ntag bounds, dl =>
    if text = "" then dl
    else
      let c0 := colorValue deps (style.getProperty "color").raw
      let textColor := if ntag == "a" then ⟨0, 0, 238, 255⟩ else c0
      if Layout.inlineIsPreformatted style then
        paintLines (Layout.splitLinesOnNewline text) bounds.x bounds.y
          metrics textColor nid dl
      else
        paintLines (Layout.splitTextIntoLines text bounds.width metrics)
          bounds.x bounds.y metrics textColor nid dl
  | .preInlineP nid style text metrics bounds, dl =>
    if text = "" then dl
    else
      let c0 := colorValue deps (style.getProperty "color").raw
      let textColor : NRGBA := if c0.a = 0 then ⟨0, 0, 0, 255⟩ else c0
      paintLines (Layout.splitLinesOnNewline text) bounds.x bounds.y
        metrics textColor nid dl

/-- The cache-free value of `paintChildren`. -/
def paintChildrenPure (deps : ParserDeps) :
    List PosNode → DisplayList → DisplayList
  | [], dl => dl
  | c :: rest, dl => paintChildrenPure deps rest (paintNodePure deps c dl)

end

mutual

/-- From a coherent cache, painting emits the cache-free command list and
keeps the cache coherent. -/
theorem paintNode_pure (deps : ParserDeps) (p : PosNode) (dl : DisplayList)
    (lc : LayoutCache) (h : Coherent deps lc) :
    (paintNode deps p dl lc).1 = paintNodePure deps p dl ∧
    Coherent deps (paintNode deps p dl lc).2 := by
  cases p with
  | docP nid bounds children =>
    exact paintChildren_pure deps children dl lc h
  | blockP nid style margin padding bounds children =>
    have hbg := paintBackgroundStep_fst h style margin bounds nid dl
    have hbgc := paintBackgroundStep_coherent h style margin bounds nid dl
    have hch := paintChildren_pure deps children
      (paintBackgroundStep deps style margin bounds nid dl lc).1
      (paintBackgroundStep deps style margin bounds nid dl lc).2 hbgc
    constructor
    · simp only [paintNode, paintNodePure]
      rw [hch.1, hbg]
    · simp only [paintNode]
      exact hch.2
  | preP nid style margin padding bounds children =>
    have hbg := paintBackgroundStep_fst h style margin bounds nid dl
    have hbgc := paintBackgroundStep_coherent h style margin bounds nid dl
    have hch := paintChildren_pure deps children
      (paintBackgroundStep deps style margin bounds nid dl lc).1
      (paintBackgroundStep deps style margin bounds nid dl lc).2 hbgc
    constructor
    · simp only [paintNode, paintNodePure]
      rw [hch.1, hbg]
    · simp only [paintNode]
      exact hch.2
  | inlineP nid style text metrics ntag bounds =>
    by_cases htext : text = ""
    · constructor
      · simp [paintNode, paintNodePure, htext]
      · simp only [paintNode, htext, if_pos]
        exact h
    · constructor
      · simp only [paintNode, paintNodePure, htext, if_neg,
          cacheGetColor_fst h]
        by_cases hpre : Layout.inlineIsPreformatted style = true
        · rw [if_pos hpre, if_pos hpre]
          rfl
        · rw [if_neg hpre, if_neg hpre]
          rfl
      · simp only [paintNode, htext, if_neg]
        by_cases hpre : Layout.inlineIsPreformatted style = true
        · simp only [hpre, if_pos]
          exact cacheGetColor_coherent h _
        · simp only [hpre, Bool.false_eq_true, if_false]
          exact cacheGetColor_coherent h _
  | preInlineP nid style text metrics bounds =>
    by_cases htext : text = ""
    · constructor
      · simp [paintNode, paintNodePure, htext]
      · simp only [paintNode, htext, if_pos]
        exact h
    · constructor
      · simp [paintNode, paintNodePure, htext, cacheGetColor_fst h]
      · simp only [paintNode, htext, if_neg]
        exact cacheGetColor_coherent h _
termination_by sizeOf p

/-- The child paint loop preserves the correspondence. -/
theorem paintChildren_pure (deps : ParserDeps) (cs : List PosNode)
    (dl : DisplayList) (lc : LayoutCache) (h : Coherent deps lc) :
    (paintChildren deps cs dl lc).1 = paintChildrenPure deps cs dl ∧
    Coherent deps (paintChildren deps cs dl lc).2 := by
  cases cs with
  | nil => exact ⟨rfl, h⟩
  | cons c rest =>
    have hhd := paintNode_pure deps c dl lc h
    have htl := paintChildren_pure deps rest (paintNode deps c dl lc).1
      (paintNode deps c dl lc).2 hhd.2
    constructor
    · simp only [paintChildren, paintChildrenPure]
      rw [htl.1, hhd.1]
    · simp only [paintChildren]
      exact htl.2
termination_by sizeOf cs

end

/-- The result of one layout pass: the positioned tree, the display list,
and the cache handed to the next pass. -/
structure LayoutRun where
  tree : Option PosNode
  list : DisplayList
  cache : LayoutCache

/-- `layoutEngine.Layout` (`src/unnamed/part_018` lines 29-45): build the
layout tree from the document, lay it out at the given width (the height
argument is not consulted), set the display list's total height, and paint.
The cache lives in the engine's dependencies and survives into the next
pass. -/
def engineLayout (deps : ParserDeps) (doc : LDocument) (width : ℚ)
    (_height : ℚ) (lc : LayoutCache) : LayoutRun :=
  let rb := buildLayoutTree deps doc doc.root [] [] lc
  match rb.1 with
  | none => ⟨none, DisplayList.empty, rb.2⟩
  | some root =>
    let rl := layoutNode root 0 0 width
    let rp := paintNode deps rl.1 (DisplayList.empty.setHeight rl.2) rb.2
    ⟨some rl.1, rp.1, rp.2⟩

/-- The cache-free value of a layout pass. -/
def engineLayoutPure (deps : ParserDeps) (doc : LDocument) (width : ℚ) :
    Option PosNode × DisplayList :=
  match buildLayoutTreePure deps doc doc.root [] [] with
  | none => (none, DisplayList.empty)
  | some root =>
    let rl := layoutNode root 0 0 width
    (some rl.1, paintNodePure deps rl.1 (DisplayList.empty.setHeight rl.2))

/-- From a coherent cache a pass produces the cache-free tree and display
list, and leaves the cache coherent. -/
theorem engineLayout_pure (deps : ParserDeps) (doc : LDocument)
    (width height : ℚ) (lc : LayoutCache) (h : Coherent deps lc) :
    (engineLayout deps doc width height lc).tree =
      (engineLayoutPure deps doc width).1 ∧
    (engineLayout deps doc width height lc).list =
      (engineLayoutPure deps doc width).2 ∧
    Coherent deps (engineLayout deps doc width height lc).cache := by
  have hb := buildLayoutTree_pure deps doc doc.root [] [] lc h
  simp only [engineLayout, engineLayoutPure]
  rw [← hb.1]
  cases hroot : (buildLayoutTree deps doc doc.root [] [] lc).1 with
  | none =>
    exact ⟨rfl, rfl, hb.2⟩
  | some root =>
    have hp := paintNode_pure deps (layoutNode root 0 0 width).1
      (DisplayList.empty.setHeight (layoutNode root 0 0 width).2)
      (buildLayoutTree deps doc doc.root [] [] lc).2 hb.2
    exact ⟨rfl, hp.1, hp.2⟩

/-- C7: running the layout pass twice on the same document at the same
width — the second pass starting from the cache the first pass left behind,
exactly as the engine's shared `LayoutCache` does — produces the identical
positioned layout tree (same box positions and sizes) and the identical
display list (same commands, in order, and same total height). -/
theorem layout_pass_idempotent (deps : ParserDeps) (doc : LDocument)
    (width height : ℚ) :
    (engineLayout deps doc width height
        (engineLayout deps doc width height emptyLayoutCache).cache).tree =
      (engineLayout deps doc width height emptyLayoutCache).tree ∧
    (engineLayout deps doc width height
        (engineLayout deps doc width height emptyLayoutCache).cache).list =
      (engineLayout deps doc width height emptyLayoutCache).list := by
  have h1 := engineLayout_pure deps doc width height emptyLayoutCache
    (coherent_empty deps)
  have h2 := engineLayout_pure deps doc width height
    (engineLayout deps doc width height emptyLayoutCache).cache h1.2.2
  exact ⟨by rw [h1.1, h2.1], by rw [h1.2.1, h2.2.1]⟩

end Engine

end GoBrowser
